import Mathlib

/-!
Verification model of `src/index.tsx` (Neliswa-Portfolio).

The file shallowly embeds the content-resolution core of the page:

* `JSON.parse` / `JSON.stringify` — executable models of the ECMAScript
  built-ins used by the source (restricted to the integer fragment of JSON
  numbers and to whitespace being space/tab/newline/carriage-return; these
  restrictions are noted at the definitions).
* `parseGeminiJson` — the fence-stripping helper (src/index.tsx lines 47-54).
* `populatePortfolioContent` — the view populator (lines 61-101), modelled as
  a transformer of an abstract DOM-content state together with a flag telling
  whether the call threw a `TypeError` (property access on `null`, `for...of`
  over a non-iterable, `.map` on a non-array), which the source's try/catch
  blocks observe.
* `generatePortfolioContent` — the resolver (lines 109-193), with the cache
  store, the remote generation call and the DOM passed in explicitly.
-/

/-- A JavaScript JSON value as produced by `JSON.parse`.  Numbers are
modelled by the integer fragment (`Int`); fractional and exponent forms are
outside the model and the model parser rejects them.  Objects are ordered
field lists; `JSON.parse` never produces duplicate keys (later duplicates
overwrite in place, see `insertKV`). -/
inductive Json where
  | null
  | bool (b : Bool)
  | num (n : Int)
  | str (s : String)
  | arr (elems : List Json)
  | obj (fields : List (String × Json))

/-- Property insertion with JavaScript object semantics: an existing key keeps
its position and gets the new value; a fresh key is appended. -/
def insertKV : List (String × Json) → String → Json → List (String × Json)
  | [], k, v => [(k, v)]
  | (k0, v0) :: kvs, k, v =>
      if k0 = k then (k0, v) :: kvs else (k0, v0) :: insertKV kvs k v

/-- Assemble the parsed members of an object literal in source order, later
duplicates overwriting earlier ones in place, as JavaScript does. -/
def buildObj (pairs : List (String × Json)) : List (String × Json) :=
  pairs.foldl (fun acc kv => insertKV acc kv.1 kv.2) []

/-- JSON whitespace (also the model of the whitespace the source's `trim` and
the regex class `\s` remove; the full JavaScript classes are wider, but every
string the claims touch is ASCII). -/
def isJsWs (c : Char) : Bool := c == ' ' || c == '\t' || c == '\n' || c == '\r'

/-- Drop leading JSON whitespace. -/
def skipWs (cs : List Char) : List Char := cs.dropWhile isJsWs

/-- Numeric value of a run of decimal digit characters. -/
def digitsVal (ds : List Char) : Nat :=
  ds.foldl (fun acc c => 10 * acc + (c.toNat - '0'.toNat)) 0

/-- Value of one hexadecimal digit character, if it is one. -/
def hexDigitVal (c : Char) : Option Nat :=
  if '0' ≤ c && c ≤ '9' then some (c.toNat - '0'.toNat)
  else if 'a' ≤ c && c ≤ 'f' then some (10 + c.toNat - 'a'.toNat)
  else if 'A' ≤ c && c ≤ 'F' then some (10 + c.toNat - 'A'.toNat)
  else none

/-- Decode a `\uXXXX` escape.  Code units in the surrogate range are not
representable as Lean scalar values and fall outside the model. -/
def decodeHex4 (a b c d : Char) : Option Char := do
  let va ← hexDigitVal a
  let vb ← hexDigitVal b
  let vc ← hexDigitVal c
  let vd ← hexDigitVal d
  let n := ((va * 16 + vb) * 16 + vc) * 16 + vd
  if 0xD800 ≤ n ∧ n ≤ 0xDFFF then none else some (Char.ofNat n)

/-- The character a single-letter escape denotes, for the escapes JSON
accepts. -/
def simpleUnescape (e : Char) : Option Char :=
  if e = '"' then some '"'
  else if e = '\\' then some '\\'
  else if e = '/' then some '/'
  else if e = 'b' then some (Char.ofNat 8)
  else if e = 'f' then some (Char.ofNat 12)
  else if e = 'n' then some '\n'
  else if e = 'r' then some '\r'
  else if e = 't' then some '\t'
  else none

/-- Body of a JSON string literal, after the opening quote: decoded characters
plus the input remaining after the closing quote.  Raw control characters are
a syntax error, as in JavaScript. -/
def parseStrBody : List Char → Option (List Char × List Char)
  | [] => none
  | c :: cs =>
    if c = '"' then some ([], cs)
    else if c = '\\' then
      match cs with
      | [] => none
      | e :: cs2 =>
        if e = 'u' then
          match cs2 with
          | h1 :: h2 :: h3 :: h4 :: cs3 =>
            match decodeHex4 h1 h2 h3 h4 with
            | some c2 => (parseStrBody cs3).map (fun p => (c2 :: p.1, p.2))
            | none => none
          | _ => none
        else
          match simpleUnescape e with
          | some c2 => (parseStrBody cs2).map (fun p => (c2 :: p.1, p.2))
          | none => none
    else if c.toNat < 0x20 then none
    else (parseStrBody cs).map (fun p => (c :: p.1, p.2))

/-- Integer-part tail check: a following `.`, `e` or `E` begins a fractional
or exponent form, which the integer model does not cover. -/
def numTail (n : Nat) (r : List Char) : Option (Nat × List Char) :=
  match r with
  | [] => some (n, [])
  | c :: _ => if c = '.' || c = 'e' || c = 'E' then none else some (n, r)

/-- A JSON natural-number token, per the grammar `0 | [1-9][0-9]*` (a zero is
never followed by more digits of the same token, exactly as in JavaScript's
tokenizer). -/
def parseNat : List Char → Option (Nat × List Char)
  | [] => none
  | c :: cs =>
    if c = '0' then numTail 0 cs
    else if c.isDigit then
      numTail (digitsVal (c :: cs.takeWhile Char.isDigit)) (cs.dropWhile Char.isDigit)
    else none

/-- One comma-separated chain of array elements up to the closing bracket.
`pv` parses one element; `fuel` bounds the length of the chain. -/
def parseElemChain (pv : List Char → Option (Json × List Char)) :
    Nat → List Char → Option (List Json × List Char)
  | 0, _ => none
  | fuel + 1, cs =>
    match pv cs with
    | none => none
    | some (v, r) =>
      match skipWs r with
      | ',' :: r2 =>
        match parseElemChain pv fuel r2 with
        | some (vs, r3) => some (v :: vs, r3)
        | none => none
      | ']' :: r2 => some ([v], r2)
      | _ => none

/-- One comma-separated chain of object members up to the closing brace. -/
def parseFieldChain (pv : List Char → Option (Json × List Char)) :
    Nat → List Char → Option (List (String × Json) × List Char)
  | 0, _ => none
  | fuel + 1, cs =>
    match skipWs cs with
    | '"' :: r =>
      match parseStrBody r with
      | none => none
      | some (kcs, r1) =>
        match skipWs r1 with
        | ':' :: r2 =>
          match pv r2 with
          | none => none
          | some (v, r3) =>
            match skipWs r3 with
            | ',' :: r4 =>
              match parseFieldChain pv fuel r4 with
              | some (kvs, r5) => some ((String.mk kcs, v) :: kvs, r5)
              | none => none
            | '\x7d' :: r4 => some ([(String.mk kcs, v)], r4)
            | _ => none
        | _ => none
    | _ => none

/-- One JSON value (with `fuel` bounding the recursion), returning the value
and the remaining input. -/
def parseValue : Nat → List Char → Option (Json × List Char)
  | 0, _ => none
  | fuel + 1, cs =>
    match skipWs cs with
    | [] => none
    | c :: rest =>
      if c = 'n' then
        match rest with
        | 'u' :: 'l' :: 'l' :: r => some (.null, r)
        | _ => none
      else if c = 't' then
        match rest with
        | 'r' :: 'u' :: 'e' :: r => some (.bool true, r)
        | _ => none
      else if c = 'f' then
        match rest with
        | 'a' :: 'l' :: 's' :: 'e' :: r => some (.bool false, r)
        | _ => none
      else if c = '"' then
        match parseStrBody rest with
        | some (scs, r) => some (.str (String.mk scs), r)
        | none => none
      else if c = '[' then
        match skipWs rest with
        | [] => none
        | c2 :: r2 =>
          if c2 = ']' then some (.arr [], r2)
          else
            match parseElemChain (parseValue fuel) (fuel + 1) rest with
            | some (vs, r) => some (.arr vs, r)
            | none => none
      else if c = '\x7b' then
        match skipWs rest with
        | [] => none
        | c2 :: r2 =>
          if c2 = '\x7d' then some (.obj [], r2)
          else
            match parseFieldChain (parseValue fuel) (fuel + 1) rest with
            | some (kvs, r) => some (.obj (buildObj kvs), r)
            | none => none
      else if c = '-' then
        match parseNat rest with
        | some (n, r) => some (.num (-(n : Int)), r)
        | none => none
      else if c.isDigit then
        match parseNat (c :: rest) with
        | some (n, r) => some (.num (n : Int), r)
        | none => none
      else none

namespace JSON

/-- Model of `JSON.parse`: parse one value, allow trailing whitespace only.
`none` models the `SyntaxError` throw.  The fuel is generous: the chain and
nesting depth of a value are both below its character count. -/
def parse (s : String) : Option Json :=
  match parseValue (s.data.length + 1) s.data with
  | some (j, r) => if (skipWs r).isEmpty then some j else none
  | none => none

end JSON

/-- Lowercase hexadecimal digit character for `n < 16`. -/
def toHexChar (n : Nat) : Char :=
  if n < 10 then Char.ofNat ('0'.toNat + n) else Char.ofNat ('a'.toNat + n - 10)

/-- Decimal digit character of `n % 10`. -/
def digitChar (n : Nat) : Char := Char.ofNat ('0'.toNat + n % 10)

/-- Most-significant-first decimal digits of `n`, prepended to `acc`; the fuel
makes the recursion structural (any fuel above `n` is enough). -/
def natToCharsAux : Nat → Nat → List Char → List Char
  | 0, _, acc => acc
  | fuel + 1, n, acc =>
    if n < 10 then digitChar n :: acc
    else natToCharsAux fuel (n / 10) (digitChar (n % 10) :: acc)

/-- Decimal digit characters of a natural number. -/
def natToChars (n : Nat) : List Char := natToCharsAux (n + 1) n []

/-- Decimal characters of an integer, as `Number.prototype.toString` renders
an integral value. -/
def intToChars (i : Int) : List Char :=
  (if i < 0 then ['-'] else []) ++ natToChars i.natAbs

/-- One string character as `JSON.stringify` emits it: quote, backslash and
the five short-escape controls get two-character escapes, any other control
gets `\u00xx`, and everything else is copied verbatim. -/
def escapeChar (c : Char) : List Char :=
  if c = '"' then ['\\', '"']
  else if c = '\\' then ['\\', '\\']
  else if c = Char.ofNat 8 then ['\\', 'b']
  else if c = '\t' then ['\\', 't']
  else if c = '\n' then ['\\', 'n']
  else if c = Char.ofNat 12 then ['\\', 'f']
  else if c = '\r' then ['\\', 'r']
  else if c.toNat < 0x20 then
    ['\\', 'u', '0', '0', toHexChar (c.toNat / 16), toHexChar (c.toNat % 16)]
  else [c]

/-- A string literal's characters, quotes included. -/
def strLitChars (s : String) : List Char :=
  '"' :: (s.data.flatMap escapeChar ++ ['"'])

mutual

/-- Characters of `JSON.stringify` output for a value (no added whitespace,
as the source calls it with no spacer argument). -/
def printChars : Json → List Char
  | .null => "null".data
  | .bool true => "true".data
  | .bool false => "false".data
  | .num i => intToChars i
  | .str s => strLitChars s
  | .arr xs => '[' :: (printElemsFirst xs ++ [']'])
  | .obj kvs => '\x7b' :: (printFieldsFirst kvs ++ ['\x7d'])

/-- Array elements, comma separated (first element). -/
def printElemsFirst : List Json → List Char
  | [] => []
  | x :: xs => printChars x ++ printElemsLater xs

/-- Array elements, comma separated (each later element after a comma). -/
def printElemsLater : List Json → List Char
  | [] => []
  | x :: xs => ',' :: (printChars x ++ printElemsLater xs)

/-- Object members, comma separated (first member). -/
def printFieldsFirst : List (String × Json) → List Char
  | [] => []
  | (k, v) :: kvs => strLitChars k ++ ':' :: (printChars v ++ printFieldsLater kvs)

/-- Object members, comma separated (each later member after a comma). -/
def printFieldsLater : List (String × Json) → List Char
  | [] => []
  | (k, v) :: kvs =>
      ',' :: (strLitChars k ++ ':' :: (printChars v ++ printFieldsLater kvs))

end

namespace JSON

/-- Model of `JSON.stringify` on values in the `JSON.parse` image. -/
def stringify (j : Json) : String := String.mk (printChars j)

end JSON

/-- Characters the source's `trim()` and the regex class `\s` strip (ASCII
fragment). -/
def trimChars (cs : List Char) : List Char :=
  ((cs.dropWhile isJsWs).reverse.dropWhile isJsWs).reverse

/-- Model of `parseGeminiJson` (src/index.tsx lines 47-54).  The regex
`^â€¦json\sâ‹†([\s\S]â‹†?)\sâ‹†â€¦$` (backtick fences) matches the trimmed text exactly
when it starts with the 7-character fence opener, ends with the 3-character
closer, and is long enough for the two not to overlap; its capture is the
text strictly between them with surrounding whitespace stripped (the leading
`\s*` is greedy and the capture lazy).  Otherwise the whole trimmed text is
handed to `JSON.parse`.  `none` models the `JSON.parse` throw. -/
def parseGeminiJson (text : String) : Option Json :=
  let trimmedText := trimChars text.data
  let fenceOpen := "```json".data
  let fenceClose := "```".data
  let jsonString :=
    if fenceOpen.isPrefixOf trimmedText && fenceClose.isSuffixOf trimmedText
        && decide (10 ≤ trimmedText.length) then
      trimChars ((trimmedText.drop 7).take (trimmedText.length - 10))
    else trimmedText
  JSON.parse (String.mk jsonString)

/-- JavaScript property access `v["k"]`, for non-`null` values: object fields
by key, `undefined` (`none`) everywhere else.  Access on `null` throws and is
handled at each call site. -/
def jsGet : Json → String → Option Json
  | .obj kvs, k => (kvs.find? (fun kv => kv.1 == k)).map (fun kv => kv.2)
  | _, _ => none

mutual

/-- ECMAScript `ToString` of a parsed JSON value, as template interpolation
applies it. -/
def jsToString : Json → String
  | .null => "null"
  | .bool true => "true"
  | .bool false => "false"
  | .num i => String.mk (intToChars i)
  | .str s => s
  | .arr xs => String.mk (jsArrJoin xs)
  | .obj _ => "[object Object]"

/-- Model of `Array.prototype.join` with the default comma separator; `null` (and
`undefined`) elements join as empty, anything else as its `ToString`. -/
def jsArrJoin : List Json → List Char
  | [] => []
  | [.null] => []
  | [x] => (jsToString x).data
  | .null :: xs => ',' :: jsArrJoin xs
  | x :: xs => (jsToString x).data ++ ',' :: jsArrJoin xs

end

/-- Template interpolation of a property-access result (`undefined` prints as
the word `undefined`). -/
def interp : Option Json → String
  | none => "undefined"
  | some j => jsToString j

/-- ECMAScript truthiness of a property-access result. -/
def jsTruthy : Option Json → Bool
  | none => false
  | some .null => false
  | some (.bool b) => b
  | some (.num i) => !(i == 0)
  | some (.str s) => !(s == "")
  | some (.arr _) => true
  | some (.obj _) => true

/-- Assignment to `Element.textContent`: `null` (and `undefined`, which the
IDL converts to `null`) clear the element, anything else is `ToString`-ed.
The assigned string is plain text: the DOM interprets no markup in it. -/
def setTextContent : Option Json → String
  | none => ""
  | some .null => ""
  | some j => jsToString j

/-- Iteration (`for...of`) over a property-access result: arrays yield their elements,
strings their characters (each a one-character string); everything else is
not iterable and makes the loop head throw a `TypeError` (`none`). -/
def jsIterate : Option Json → Option (List Json)
  | some (.arr xs) => some xs
  | some (.str s) => some (s.data.map (fun c => Json.str (String.mk [c])))
  | _ => none

/-- Presence of the three container elements the populator and the resolver
both guard on (lines 12-15: the module-level `getElementById` results). -/
structure Elements where
  biographyContentElement : Bool
  skillsGridElement : Bool
  projectsGridElement : Bool

/-- One rendered skill card: the heading interpolates `skillName`, the body
`description` (lines 70-75). -/
structure SkillCard where
  heading : String
  body : String

/-- One rendered project card (lines 82-98).  `liveHref` is the target of the
optional secondary (class `btn-secondary`) Live-Demo anchor: `none` means the
card contains no secondary link, `some u` that it contains exactly one, with
`href` equal to `u`.  `githubHref` is the target of the mandatory primary
View-on-GitHub anchor. -/
structure ProjectCard where
  title : String
  body : String
  techItems : List String
  githubHref : String
  liveHref : Option String

/-- The mutable DOM content the populator touches: the biography element's
`textContent` (plain text) and the two grids' card lists. -/
structure DomContent where
  bioText : String
  skillCards : List SkillCard
  projectCards : List ProjectCard

/-- The skills loop (lines 69-77): cards appended so far, and whether an
iteration threw (property access on a `null` element). -/
def renderSkillCards : List Json → List SkillCard × Bool
  | [] => ([], false)
  | s :: rest =>
    match s with
    | .null => ([], true)
    | _ =>
      let card : SkillCard := ⟨interp (jsGet s "skillName"), interp (jsGet s "description")⟩
      let res := renderSkillCards rest
      (card :: res.1, res.2)

/-- One project card from a project whose `technologies` read produced the
array `ts` (lines 82-98). -/
def renderProjectCard (p : Json) (ts : List Json) : ProjectCard :=
  { title := interp (jsGet p "projectName")
    body := interp (jsGet p "description")
    techItems := ts.map (fun t => interp (some t))
    githubHref := interp (jsGet p "githubUrl")
    liveHref :=
      if jsTruthy (jsGet p "liveUrl") then some (interp (jsGet p "liveUrl")) else none }

/-- The projects loop (lines 81-100): cards appended so far, and whether an
iteration threw (`null` element, or `.map` called on a non-array
`technologies`). -/
def renderProjectCards : List Json → List ProjectCard × Bool
  | [] => ([], false)
  | p :: rest =>
    match p with
    | .null => ([], true)
    | _ =>
      match jsGet p "technologies" with
      | some (.arr ts) =>
        let res := renderProjectCards rest
        (renderProjectCard p ts :: res.1, res.2)
      | _ => ([], true)

/-- Model of `populatePortfolioContent` (lines 61-101): the DOM content after the call
and whether the call threw.  The source order is kept: guard; biography
`textContent`; clear skills grid; skills loop; clear projects grid; projects
loop.  A throw leaves everything mutated so far in place. -/
def populatePortfolioContent (elems : Elements) (data : Json) (dom : DomContent) :
    DomContent × Bool :=
  if !(elems.biographyContentElement && elems.skillsGridElement
      && elems.projectsGridElement) then (dom, false)
  else
    match data with
    | .null => (dom, true)
    | _ =>
      let dom1 : DomContent := { dom with bioText := setTextContent (jsGet data "biography") }
      let dom2 : DomContent := { dom1 with skillCards := [] }
      match jsIterate (jsGet data "skills") with
      | none => (dom2, true)
      | some skills =>
        let sres := renderSkillCards skills
        let dom3 : DomContent := { dom2 with skillCards := sres.1 }
        if sres.2 then (dom3, true)
        else
          let dom4 : DomContent := { dom3 with projectCards := [] }
          match jsIterate (jsGet data "projects") with
          | none => (dom4, true)
          | some projects =>
            let pres := renderProjectCards projects
            ({ dom4 with projectCards := pres.1 }, pres.2)

/-- Model of `defaultPortfolioData` (lines 23-38), the compiled-in fallback content. -/
def defaultPortfolioData : Json :=
  Json.obj
    [("biography", Json.str "As a skilled Software Developer with a background in ICT and Applications Development, I specialize in C#, HTML, SQL, and cloud computing. I am passionate about leveraging technology to solve complex problems and have recently expanded my expertise into the exciting field of Artificial Intelligence. I am always eager to learn and apply new skills to create innovative and efficient solutions."),
     ("skills", Json.arr
       [Json.obj [("skillName", Json.str "C# & .NET"), ("description", Json.str "Building robust and scalable server-side applications.")],
        Json.obj [("skillName", Json.str "HTML, CSS & JavaScript"), ("description", Json.str "Creating responsive and interactive user interfaces.")],
        Json.obj [("skillName", Json.str "SQL Databases"), ("description", Json.str "Designing and managing relational databases for optimal performance.")],
        Json.obj [("skillName", Json.str "Cloud Computing"), ("description", Json.str "Deploying and managing applications on cloud platforms like Azure and AWS.")],
        Json.obj [("skillName", Json.str "AI & Machine Learning"), ("description", Json.str "Exploring and implementing AI models to build intelligent features.")],
        Json.obj [("skillName", Json.str "Agile Methodologies"), ("description", Json.str "Collaborating in fast-paced environments to deliver quality software.")]]),
     ("projects", Json.arr
       [Json.obj [("projectName", Json.str "AI Study Buddy"),
         ("description", Json.str "A RAG-powered chatbot providing answers from a specialized knowledge base. It uses vector embeddings to find relevant document chunks and Gemini to generate context-aware, accurate responses."),
         ("technologies", Json.arr [Json.str "Python", Json.str "Gemini API", Json.str "LangChain", Json.str "VectorDB"]),
         ("githubUrl", Json.str "https://github.com/Nompil/ai-study-buddy"),
         ("liveUrl", Json.str "https://capeitinitiative-my.sharepoint.com/:u:/g/personal/neliswa_mbele_capaciti_org_za/EeP6VWFug-NJk9_H73HY3-YBhyXqZr_w9b0e1R2EJQte6Q?e=v845FL")],
        Json.obj [("projectName", Json.str "Sentiment Analysis Dashboard"),
         ("description", Json.str "An interactive dashboard that analyzes sentiment in text data, enabling users to understand emotional tone in customer reviews, social media posts, or other text content."),
         ("technologies", Json.arr [Json.str "Python", Json.str "Flask", Json.str "Chart.js", Json.str "NLTK"]),
         ("githubUrl", Json.str "https://github.com/skelletor147/sentimental-analysis-dashboard"),
         ("liveUrl", Json.str "https://capeitinitiative-my.sharepoint.com/:u:/g/personal/neliswa_mbele_capaciti_org_za/ETbKaRdx1c5Do104LYkKIGsBvbI_z9NVhMIkbQwtzaQedA?e=LdGXyO")],
        Json.obj [("projectName", Json.str "Intelligent Resume Builder"),
         ("description", Json.str "An intelligent resume generation system that creates customized, ATS-friendly resumes based on user inputs."),
         ("technologies", Json.arr [Json.str "React", Json.str "Node.js", Json.str "Gemini API", Json.str "PDFKit"]),
         ("githubUrl", Json.str "https://github.com/Mphefemulo/Masikhule.git"),
         ("liveUrl", Json.str "https://masikhule-solutions.github.io/ai-resume-builder/")]])]

/-- The DOM content after a full render of the default data (the default data
always renders without throwing, and the render overwrites all three
fields, so the outcome is this one fixed state whatever the DOM held). -/
def defaultDomContent : DomContent :=
  (populatePortfolioContent ⟨true, true, true⟩ defaultPortfolioData ⟨"", [], []⟩).1

/-- The origin-scoped key-value store behind `localStorage`. -/
abbrev Store := List (String × String)

/-- Model of `localStorage.getItem`. -/
def getItem (k : String) (store : Store) : Option String :=
  (store.find? (fun kv => kv.1 == k)).map (fun kv => kv.2)

/-- Model of `localStorage.setItem`: replace in place, or append a fresh key. -/
def setItem (k v : String) (store : Store) : Store :=
  if store.any (fun kv => kv.1 == k) then
    store.map (fun kv => if kv.1 == k then (kv.1, v) else kv)
  else store ++ [(k, v)]

/-- Model of `localStorage.removeItem`. -/
def removeItem (k : String) (store : Store) : Store :=
  store.filter (fun kv => !(kv.1 == k))

/-- The fixed cache key of the resolver. -/
def portfolioKey : String := "portfolioContent"

/-- What the awaited `ai.models.generateContent` call produced: `some text`
for a response whose `.text` is that string, `none` when the call threw
(network error, non-2xx, schema rejection; a response with an absent `.text`
also throws inside the same try, at `text.trim()`, and behaves identically). -/
abbrev RemoteBehavior := Option String

/-- Outcome of the remote-fetch try/catch (lines 127-192): the store and DOM
afterwards, and whether `setItem` ran. -/
structure FetchOutcome where
  store : Store
  dom : DomContent
  wroteCache : Bool

/-- The remote-fetch try/catch of `generatePortfolioContent` (lines 127-192):
on a response, parse it, render it, then cache the serialized object; any
throw up to and including the render lands in the catch, which renders the
default data and writes nothing. -/
def remoteFetchStep (elems : Elements) (remote : RemoteBehavior) (store : Store)
    (dom : DomContent) : FetchOutcome :=
  match remote with
  | none => ⟨store, (populatePortfolioContent elems defaultPortfolioData dom).1, false⟩
  | some text =>
    match parseGeminiJson text with
    | none => ⟨store, (populatePortfolioContent elems defaultPortfolioData dom).1, false⟩
    | some data =>
      let pr := populatePortfolioContent elems data dom
      if pr.2 then
        ⟨store, (populatePortfolioContent elems defaultPortfolioData pr.1).1, false⟩
      else
        ⟨setItem portfolioKey (JSON.stringify data) store, pr.1, true⟩

/-- Result of one `generatePortfolioContent()` run: final store and DOM,
whether the cache was read (`getItem`), whether the remote generation call
was issued, whether `setItem` ran, and whether `removeItem` ran. -/
structure ResolveResult where
  store : Store
  dom : DomContent
  readCache : Bool
  remoteCalled : Bool
  wroteCache : Bool
  removedCache : Bool

/-- Model of `generatePortfolioContent` (lines 109-193).  Guard on the three
containers; read the cache; line 114 then tests `if (cachedContent)` — a
truthiness test, not a presence test, so a present but *empty* cached string
is falsy and the whole cached-content block (parse, render, return, catch
with `removeItem`) is skipped, the entry surviving into the remote fetch.
On a truthy entry, parse and render it inside a try whose catch removes the
entry and falls through to the remote fetch; a successful cached render
returns at once. -/
def generatePortfolioContent (elems : Elements) (remote : RemoteBehavior)
    (store : Store) (dom : DomContent) : ResolveResult :=
  if !(elems.biographyContentElement && elems.skillsGridElement
      && elems.projectsGridElement) then ⟨store, dom, false, false, false, false⟩
  else
    match getItem portfolioKey store with
    | some cachedContent =>
      if cachedContent = "" then
        let f := remoteFetchStep elems remote store dom
        ⟨f.store, f.dom, true, true, f.wroteCache, false⟩
      else
      match JSON.parse cachedContent with
      | some data =>
        let pr := populatePortfolioContent elems data dom
        if pr.2 then
          let f := remoteFetchStep elems remote (removeItem portfolioKey store) pr.1
          ⟨f.store, f.dom, true, true, f.wroteCache, true⟩
        else ⟨store, pr.1, true, false, false, false⟩
      | none =>
        let f := remoteFetchStep elems remote (removeItem portfolioKey store) dom
        ⟨f.store, f.dom, true, true, f.wroteCache, true⟩
    | none =>
      let f := remoteFetchStep elems remote store dom
      ⟨f.store, f.dom, true, true, f.wroteCache, false⟩

/-- Keys of later members never repeat the head key (object well-formedness
helper). -/
def distinctKeys : List (String × Json) → Bool
  | [] => true
  | (k, _) :: kvs => kvs.all (fun kv => !(kv.1 == k)) && distinctKeys kvs

mutual

/-- Values representable as JavaScript runtime values: object keys are
pairwise distinct at every level.  `JSON.parse` only ever produces such
values. -/
def Json.wf : Json → Bool
  | .null => true
  | .bool _ => true
  | .num _ => true
  | .str _ => true
  | .arr xs => wfElems xs
  | .obj kvs => distinctKeys kvs && wfFields kvs

/-- All elements well formed. -/
def wfElems : List Json → Bool
  | [] => true
  | x :: xs => x.wf && wfElems xs

/-- All member values well formed. -/
def wfFields : List (String × Json) → Bool
  | [] => true
  | kv :: kvs => kv.2.wf && wfFields kvs

end

/-- Input that cannot extend a just-parsed number token: empty, or headed by
a character that is neither a digit nor `.`, `e`, `E`.  Commas, closing
brackets and braces, and whitespace all qualify. -/
def numStop : List Char → Bool
  | [] => true
  | c :: _ => !(c.isDigit || c == '.' || c == 'e' || c == 'E')

/-- All three containers the source guards on are in the document. -/
def Elements.allPresent (e : Elements) : Bool :=
  e.biographyContentElement && e.skillsGridElement && e.projectsGridElement

/-! ### Resolver and populator lemmas -/

/-- With any target container missing, the populator returns before mutating
anything. -/
theorem populate_absent (elems : Elements) (data : Json) (dom : DomContent)
    (h : elems.allPresent = false) :
    populatePortfolioContent elems data dom = (dom, false) := by
  simp only [Elements.allPresent] at h
  simp only [populatePortfolioContent, h]
  rfl

/-- With any target container missing, the resolver returns before touching
the cache, the network or the DOM. -/
theorem resolve_absent (elems : Elements) (remote : RemoteBehavior) (store : Store)
    (dom : DomContent) (h : elems.allPresent = false) :
    generatePortfolioContent elems remote store dom =
      ⟨store, dom, false, false, false, false⟩ := by
  simp only [Elements.allPresent] at h
  simp only [generatePortfolioContent, h]
  rfl

/-- A present empty cache entry is falsy at line 114: the cached-content
block is skipped entirely, no parse and no `removeItem` run, and the
resolver proceeds to the remote fetch with the entry still in the store. -/
theorem resolve_empty_cached (elems : Elements) (remote : RemoteBehavior)
    (store : Store) (dom : DomContent)
    (hp : elems.allPresent = true)
    (hget : getItem portfolioKey store = some "") :
    generatePortfolioContent elems remote store dom =
      (let f := remoteFetchStep elems remote store dom
       ⟨f.store, f.dom, true, true, f.wroteCache, false⟩) := by
  simp only [Elements.allPresent] at hp
  simp only [generatePortfolioContent, hp, hget]
  rfl

/-- Rendering the compiled-in default data never throws and fully determines
the DOM content, whatever it held before. -/
theorem populate_default_full (elems : Elements) (dom : DomContent)
    (h : elems.allPresent = true) :
    populatePortfolioContent elems defaultPortfolioData dom = (defaultDomContent, false) := by
  obtain ⟨b1, b2, b3⟩ := elems
  simp only [Elements.allPresent, Bool.and_eq_true] at h
  obtain ⟨⟨rfl, rfl⟩, rfl⟩ := h
  rfl

/-- C8.  For every content object, if any of the three target containers
(biography, skills grid, projects grid) is absent from the document,
`populate()` is a no-op: it performs no DOM mutation and changes no state. -/
theorem c8_populate_noop_when_container_absent (elems : Elements) (data : Json)
    (dom : DomContent)
    (h : elems.biographyContentElement = false ∨ elems.skillsGridElement = false
      ∨ elems.projectsGridElement = false) :
    populatePortfolioContent elems data dom = (dom, false) := by
  apply populate_absent
  simp only [Elements.allPresent]
  rcases h with h | h | h <;> simp [h]

/-- Witness for C8 at a concrete input (skills grid absent). -/
theorem c8_populate_noop_when_container_absent_witness :
    populatePortfolioContent ⟨true, false, true⟩ defaultPortfolioData
      ⟨"placeholder", [], []⟩ = (⟨"placeholder", [], []⟩, false) :=
  c8_populate_noop_when_container_absent _ _ _ (Or.inr (Or.inl rfl))

/-- C10.  If any of the three target containers is absent from the document,
`resolve()` itself returns immediately before any work: no cache read, no
cache write or delete, and no remote generation call. -/
theorem c10_resolver_noop_when_container_absent (elems : Elements)
    (remote : RemoteBehavior) (store : Store) (dom : DomContent)
    (h : elems.biographyContentElement = false ∨ elems.skillsGridElement = false
      ∨ elems.projectsGridElement = false) :
    generatePortfolioContent elems remote store dom =
      ⟨store, dom, false, false, false, false⟩ := by
  apply resolve_absent
  simp only [Elements.allPresent]
  rcases h with h | h | h <;> simp [h]

/-- Witness for C10 at a concrete input (biography container absent). -/
theorem c10_resolver_noop_when_container_absent_witness :
    generatePortfolioContent ⟨false, true, true⟩ none [("k", "v")] ⟨"p", [], []⟩ =
      ⟨[("k", "v")], ⟨"p", [], []⟩, false, false, false, false⟩ :=
  c10_resolver_noop_when_container_absent _ _ _ _ (Or.inl rfl)

/-- Counterexample to C3 as stated.  The empty string is a present cached
string that is not valid JSON (`JSON.parse("")` throws), yet the resolver
deletes nothing: line 114 tests `if (cachedContent)`, a truthiness test, and
the empty string is falsy, so the cache block — including the catch that
calls `removeItem` — is skipped.  The entry survives in the store while the
resolver proceeds to the remote call. -/
theorem c3_empty_string_cache_counterexample :
    getItem portfolioKey [(portfolioKey, "")] = some ""
    ∧ JSON.parse "" = none
    ∧ (generatePortfolioContent ⟨true, true, true⟩ none [(portfolioKey, "")]
        ⟨"p", [], []⟩).removedCache = false
    ∧ getItem portfolioKey (generatePortfolioContent ⟨true, true, true⟩ none
        [(portfolioKey, "")] ⟨"p", [], []⟩).store = some ""
    ∧ (generatePortfolioContent ⟨true, true, true⟩ none [(portfolioKey, "")]
        ⟨"p", [], []⟩).remoteCalled = true :=
  ⟨rfl, rfl, rfl, rfl, rfl⟩

/-- C3 (amended).  A present *non-empty* cache entry that is not valid JSON
is removed, and the resolver then proceeds to the remote-fetch phase (which
always issues the generation call) on the store with the entry deleted.
Non-emptiness is exactly what line 114's truthiness test `if (cachedContent)`
demands of a present string before the cache block runs at all. -/
theorem c3_nonempty_invalid_cache_deleted_then_remote (elems : Elements)
    (remote : RemoteBehavior) (store : Store) (dom : DomContent) (s : String)
    (hp : elems.allPresent = true)
    (hget : getItem portfolioKey store = some s)
    (hne : s ≠ "")
    (hbad : JSON.parse s = none) :
    generatePortfolioContent elems remote store dom =
      (let f := remoteFetchStep elems remote (removeItem portfolioKey store) dom
       ⟨f.store, f.dom, true, true, f.wroteCache, true⟩) := by
  simp only [Elements.allPresent] at hp
  simp only [generatePortfolioContent, hp, hget, if_neg hne, hbad]
  rfl

/-- Witness for the amended C3 at a concrete corrupted (non-empty) cache
entry. -/
theorem c3_nonempty_invalid_cache_deleted_then_remote_witness :
    generatePortfolioContent ⟨true, true, true⟩ none [(portfolioKey, "\x7bnot json")]
      ⟨"p", [], []⟩ =
      (let f := remoteFetchStep ⟨true, true, true⟩ none
        (removeItem portfolioKey [(portfolioKey, "\x7bnot json")]) ⟨"p", [], []⟩
       ⟨f.store, f.dom, true, true, f.wroteCache, true⟩) :=
  c3_nonempty_invalid_cache_deleted_then_remote _ _ _ _ _ rfl rfl (by decide) rfl

/-- Unfolding of the populator when all containers are present and the data
is not `null` (the source's lines 64-100, after the guard). -/
theorem populate_present (elems : Elements) (data : Json) (dom : DomContent)
    (hp : elems.allPresent = true) (hnn : data ≠ Json.null) :
    populatePortfolioContent elems data dom =
      (let dom2 : DomContent :=
        { dom with bioText := setTextContent (jsGet data "biography"), skillCards := [] }
       match jsIterate (jsGet data "skills") with
       | none => (dom2, true)
       | some skills =>
         let sres := renderSkillCards skills
         let dom3 : DomContent := { dom2 with skillCards := sres.1 }
         if sres.2 then (dom3, true)
         else
           let dom4 : DomContent := { dom3 with projectCards := [] }
           match jsIterate (jsGet data "projects") with
           | none => (dom4, true)
           | some projects =>
             let pres := renderProjectCards projects
             ({ dom4 with projectCards := pres.1 }, pres.2)) := by
  simp only [Elements.allPresent] at hp
  simp only [populatePortfolioContent, hp]
  cases data with
  | null => exact absurd rfl hnn
  | bool b => rfl
  | num n => rfl
  | str s => rfl
  | arr xs => rfl
  | obj kvs => rfl

/-- C9.  Whenever the content object carries a string `biography` field, the
populator assigns it to the biography element's `textContent` verbatim —
`setTextContent` on a string is the identity, and `textContent` assignment
is plain text, interpreting no markup. -/
theorem c9_biography_set_verbatim (elems : Elements) (data : Json) (dom : DomContent)
    (b : String)
    (hp : elems.allPresent = true)
    (hbio : jsGet data "biography" = some (Json.str b)) :
    (populatePortfolioContent elems data dom).1.bioText = b := by
  cases data with
  | null => simp [jsGet] at hbio
  | bool b2 => simp [jsGet] at hbio
  | num n => simp [jsGet] at hbio
  | str s => simp [jsGet] at hbio
  | arr xs => simp [jsGet] at hbio
  | obj kvs =>
    rw [populate_present elems _ dom hp (by intro h; cases h)]
    simp only [hbio]
    cases hit : jsIterate (jsGet (Json.obj kvs) "skills") with
    | none => simp [setTextContent, jsToString]
    | some skills =>
      simp only []
      by_cases hs : (renderSkillCards skills).2 = true
      · simp [hs, setTextContent, jsToString]
      · simp only [Bool.not_eq_true] at hs
        simp only [hs, if_false]
        cases hpit : jsIterate (jsGet (Json.obj kvs) "projects") with
        | none => simp [setTextContent, jsToString]
        | some projects => simp [setTextContent, jsToString]

/-- Witness for C9 at a concrete content object. -/
theorem c9_biography_set_verbatim_witness :
    (populatePortfolioContent ⟨true, true, true⟩
      (Json.obj [("biography", Json.str "Bio <em>text</em>")]) ⟨"p", [], []⟩).1.bioText
      = "Bio <em>text</em>" :=
  c9_biography_set_verbatim _ _ _ _ rfl rfl

/-- Unfolding of the projects loop at a non-`null` head element. -/
theorem renderProjectCards_cons (q : Json) (qs : List Json) (hnn : q ≠ Json.null) :
    renderProjectCards (q :: qs) =
      (match jsGet q "technologies" with
       | some (Json.arr ts) =>
         (renderProjectCard q ts :: (renderProjectCards qs).1, (renderProjectCards qs).2)
       | _ => ([], true)) := by
  cases q with
  | null => exact absurd rfl hnn
  | bool b => rfl
  | num n => rfl
  | str s => rfl
  | arr xs => rfl
  | obj kvs => rfl

/-- In a projects loop that finished without throwing, the card at every
index is built by `renderProjectCard` from the project at the same index and
its `technologies` array. -/
theorem renderProjectCards_get (ps : List Json) (hok : (renderProjectCards ps).2 = false) :
    ∀ i p, ps.get? i = some p →
      ∃ ts, jsGet p "technologies" = some (Json.arr ts)
        ∧ (renderProjectCards ps).1.get? i = some (renderProjectCard p ts) := by
  induction ps with
  | nil => intro i p hi; simp at hi
  | cons q qs ih =>
    intro i p hi
    by_cases hnn : q = Json.null
    · subst hnn; simp [renderProjectCards] at hok
    · rw [renderProjectCards_cons q qs hnn] at hok ⊢
      cases htech : jsGet q "technologies" with
      | none => rw [htech] at hok; simp at hok
      | some j =>
        cases j with
        | arr ts =>
          rw [htech] at hok
          dsimp only at hok ⊢
          cases i with
          | zero =>
            simp only [List.get?] at hi
            cases hi
            exact ⟨ts, htech, rfl⟩
          | succ n =>
            simp only [List.get?] at hi
            exact ih hok n p hi
        | null => rw [htech] at hok; simp at hok
        | bool b => rw [htech] at hok; simp at hok
        | num m => rw [htech] at hok; simp at hok
        | str s => rw [htech] at hok; simp at hok
        | obj kvs => rw [htech] at hok; simp at hok

/-- C6.  In a render that completes, every project produces one card whose
mandatory primary link targets its `githubUrl`; the optional secondary
(Live-Demo) link is absent exactly when `liveUrl` is the empty string, and is
the single secondary link, targeting that URL, when `liveUrl` is a non-empty
string. -/
theorem c6_secondary_link_iff_liveUrl (elems : Elements) (data : Json) (dom : DomContent)
    (ps : List Json) (i : Nat) (p : Json)
    (hp : elems.allPresent = true)
    (hok : (populatePortfolioContent elems data dom).2 = false)
    (hproj : jsGet data "projects" = some (Json.arr ps))
    (hi : ps.get? i = some p) :
    ∃ card, (populatePortfolioContent elems data dom).1.projectCards.get? i = some card
      ∧ card.githubHref = interp (jsGet p "githubUrl")
      ∧ (jsGet p "liveUrl" = some (Json.str "") → card.liveHref = none)
      ∧ (∀ u, jsGet p "liveUrl" = some (Json.str u) → u ≠ "" → card.liveHref = some u) := by
  have hnn : data ≠ Json.null := by intro h; subst h; simp [jsGet] at hproj
  rw [populate_present elems data dom hp hnn] at hok ⊢
  dsimp only at hok ⊢
  cases hsk : jsIterate (jsGet data "skills") with
  | none => rw [hsk] at hok; simp at hok
  | some skills =>
    rw [hsk] at hok
    dsimp only at hok ⊢
    by_cases hs2 : (renderSkillCards skills).2 = true
    · rw [if_pos hs2] at hok; simp at hok
    · rw [if_neg hs2] at hok ⊢
      rw [hproj] at hok ⊢
      simp only [jsIterate] at hok ⊢
      obtain ⟨ts, htech, hcard⟩ := renderProjectCards_get ps hok i p hi
      refine ⟨renderProjectCard p ts, ?_, rfl, ?_, ?_⟩
      · simpa using hcard
      · intro hlive
        simp [renderProjectCard, hlive, jsTruthy]
      · intro u hlive hne
        simp [renderProjectCard, hlive, jsTruthy, hne, interp, jsToString]

/-- Witness for C6: a concrete completed render; the single project has an
empty `liveUrl`, so its card carries the GitHub link and no secondary link. -/
theorem c6_secondary_link_iff_liveUrl_witness :
    ∃ card,
      (populatePortfolioContent ⟨true, true, true⟩
        (Json.obj [("biography", Json.str "B"), ("skills", Json.arr []),
          ("projects", Json.arr [Json.obj [("projectName", Json.str "P"),
            ("description", Json.str "D"),
            ("technologies", Json.arr [Json.str "T"]),
            ("githubUrl", Json.str "https://github.com/x/y"),
            ("liveUrl", Json.str "")]])])
        ⟨"p", [], []⟩).1.projectCards.get? 0 = some card
      ∧ card.githubHref = interp (jsGet (Json.obj [("projectName", Json.str "P"),
            ("description", Json.str "D"),
            ("technologies", Json.arr [Json.str "T"]),
            ("githubUrl", Json.str "https://github.com/x/y"),
            ("liveUrl", Json.str "")]) "githubUrl")
      ∧ (jsGet (Json.obj [("projectName", Json.str "P"),
            ("description", Json.str "D"),
            ("technologies", Json.arr [Json.str "T"]),
            ("githubUrl", Json.str "https://github.com/x/y"),
            ("liveUrl", Json.str "")]) "liveUrl" = some (Json.str "") → card.liveHref = none)
      ∧ (∀ u, jsGet (Json.obj [("projectName", Json.str "P"),
            ("description", Json.str "D"),
            ("technologies", Json.arr [Json.str "T"]),
            ("githubUrl", Json.str "https://github.com/x/y"),
            ("liveUrl", Json.str "")]) "liveUrl" = some (Json.str u) → u ≠ ""
            → card.liveHref = some u) :=
  c6_secondary_link_iff_liveUrl _ _ _ _ 0 _ rfl rfl rfl rfl

/-- Counterexample to C1 as stated.  The cached string `null` parses as JSON
(to the value `null`), yet the resolver issues the remote generation call on
that run: rendering the parsed value throws (property access on `null`, line
65), the cache-path catch swallows the throw, and control falls through to
the fetch.  C1's conclusion "returns without issuing any remote generation
call" therefore fails for this parseable cache state. -/
theorem c1_cached_json_counterexample :
    JSON.parse "null" = some Json.null
    ∧ (generatePortfolioContent ⟨true, true, true⟩ none [(portfolioKey, "null")]
        ⟨"p", [], []⟩).remoteCalled = true :=
  ⟨rfl, rfl⟩

/-- C1 (amended).  If the cached string parses as JSON *and rendering the
parsed value does not throw*, the resolver renders exactly that parsed value
and returns: no remote call, no cache write, no cache delete, store
untouched. -/
theorem c1_cached_json_renders_without_remote (elems : Elements)
    (remote : RemoteBehavior) (store : Store) (dom : DomContent) (s : String) (data : Json)
    (hp : elems.allPresent = true)
    (hget : getItem portfolioKey store = some s)
    (hparse : JSON.parse s = some data)
    (hrender : (populatePortfolioContent elems data dom).2 = false) :
    generatePortfolioContent elems remote store dom =
      ⟨store, (populatePortfolioContent elems data dom).1, true, false, false, false⟩ := by
  have hne : ¬ s = "" := by
    intro h
    rw [h, show JSON.parse "" = none from rfl] at hparse
    exact Option.noConfusion hparse
  simp only [Elements.allPresent] at hp
  simp only [generatePortfolioContent, hp, hget, if_neg hne, hparse]
  simp [hrender]

/-- Witness for the amended C1: a well-shaped cached object is rendered with
no remote call. -/
theorem c1_cached_json_renders_without_remote_witness :
    generatePortfolioContent ⟨true, true, true⟩ none
      [(portfolioKey, "\x7b\"biography\":\"B\",\"skills\":[],\"projects\":[]\x7d")]
      ⟨"p", [], []⟩ =
      ⟨[(portfolioKey, "\x7b\"biography\":\"B\",\"skills\":[],\"projects\":[]\x7d")],
       (populatePortfolioContent ⟨true, true, true⟩
         (Json.obj [("biography", Json.str "B"), ("skills", Json.arr []),
           ("projects", Json.arr [])]) ⟨"p", [], []⟩).1,
       true, false, false, false⟩ :=
  c1_cached_json_renders_without_remote _ _ _ _ _ _ rfl rfl rfl rfl

/-- Counterexample to C7 as stated.  The cached string `42` parses as JSON,
so the run contains no "path where parsing the cached string throws"; still
the entry is removed — the catch that deletes it also fires when rendering
the parsed cached value throws (here: `for...of` over `(42).skills`, line
69). -/
theorem c7_delete_only_on_parse_throw_counterexample :
    JSON.parse "42" = some (Json.num 42)
    ∧ (generatePortfolioContent ⟨true, true, true⟩ none [(portfolioKey, "42")]
        ⟨"p", [], []⟩).removedCache = true
    ∧ getItem portfolioKey
        (generatePortfolioContent ⟨true, true, true⟩ none [(portfolioKey, "42")]
          ⟨"p", [], []⟩).store = none :=
  ⟨rfl, rfl, rfl⟩

/-- C7 (amended).  Across every execution, the entry is removed exactly on
the cache-path catch: it was present, and either parsing it threw or
rendering the parsed value threw.  No other operation (cache-hit success,
remote fetch, remote failure) removes it. -/
theorem c7_delete_only_on_cache_path_throw (elems : Elements)
    (remote : RemoteBehavior) (store : Store) (dom : DomContent)
    (hrem : (generatePortfolioContent elems remote store dom).removedCache = true) :
    ∃ s, getItem portfolioKey store = some s
      ∧ (JSON.parse s = none
         ∨ ∃ data, JSON.parse s = some data
             ∧ (populatePortfolioContent elems data dom).2 = true) := by
  by_cases hp : elems.allPresent = true
  · have hp' := hp
    simp only [Elements.allPresent] at hp'
    cases hget : getItem portfolioKey store with
    | none =>
      simp only [generatePortfolioContent, hp', hget] at hrem
      simp at hrem
    | some s =>
      refine ⟨s, rfl, ?_⟩
      by_cases hse : s = ""
      · exfalso
        subst hse
        rw [resolve_empty_cached elems remote store dom hp hget] at hrem
        simp at hrem
      · cases hparse : JSON.parse s with
        | none => exact Or.inl rfl
        | some data =>
          simp only [generatePortfolioContent, hp', hget, if_neg hse, hparse] at hrem
          by_cases hr : (populatePortfolioContent elems data dom).2 = true
          · exact Or.inr ⟨data, rfl, hr⟩
          · simp [hr] at hrem
  · rw [resolve_absent elems remote store dom (by simpa using hp)] at hrem
    simp at hrem

/-- Witness for the amended C7: a removal does happen on a corrupted entry,
and the theorem locates its cause. -/
theorem c7_delete_only_on_cache_path_throw_witness :
    ∃ s, getItem portfolioKey [(portfolioKey, "\x7bnot json")] = some s
      ∧ (JSON.parse s = none
         ∨ ∃ data, JSON.parse s = some data
             ∧ (populatePortfolioContent ⟨true, true, true⟩ data ⟨"p", [], []⟩).2 = true) :=
  c7_delete_only_on_cache_path_throw ⟨true, true, true⟩ none
    [(portfolioKey, "\x7bnot json")] ⟨"p", [], []⟩ rfl

/-- On a throwing remote call, or one whose text does not survive
`parseGeminiJson`, the fetch phase renders the default data and writes
nothing. -/
theorem remoteFetchStep_fail (elems : Elements) (remote : RemoteBehavior)
    (store : Store) (dom : DomContent)
    (hp : elems.allPresent = true)
    (hfail : remote = none ∨ ∃ t, remote = some t ∧ parseGeminiJson t = none) :
    remoteFetchStep elems remote store dom = ⟨store, defaultDomContent, false⟩ := by
  rcases hfail with rfl | ⟨t, rfl, hbad⟩
  · simp only [remoteFetchStep]
    rw [populate_default_full elems dom hp]
  · simp only [remoteFetchStep, hbad]
    rw [populate_default_full elems dom hp]

/-- C2.  On every run whose remote generation call is issued and then throws
or returns text that fails to parse, the resolver renders exactly the
compiled-in default content and performs no cache write: the store is
whatever the cache phase left (unchanged, or with only the corrupted entry
removed — a deletion C3 covers, not a write). -/
theorem c2_remote_failure_renders_default_no_write (elems : Elements)
    (remote : RemoteBehavior) (store : Store) (dom : DomContent)
    (hfail : remote = none ∨ ∃ t, remote = some t ∧ parseGeminiJson t = none)
    (hcalled : (generatePortfolioContent elems remote store dom).remoteCalled = true) :
    (generatePortfolioContent elems remote store dom).dom = defaultDomContent
    ∧ (generatePortfolioContent elems remote store dom).wroteCache = false
    ∧ ((generatePortfolioContent elems remote store dom).store = store
       ∨ (generatePortfolioContent elems remote store dom).store
           = removeItem portfolioKey store) := by
  by_cases hp : elems.allPresent = true
  · have hp' := hp
    simp only [Elements.allPresent] at hp'
    cases hget : getItem portfolioKey store with
    | none =>
      simp only [generatePortfolioContent, hp', hget,
        remoteFetchStep_fail elems remote store dom hp hfail]
      exact ⟨rfl, rfl, Or.inl rfl⟩
    | some s =>
      by_cases hse : s = ""
      · subst hse
        rw [resolve_empty_cached elems remote store dom hp hget,
          remoteFetchStep_fail elems remote store dom hp hfail]
        exact ⟨rfl, rfl, Or.inl rfl⟩
      · cases hparse : JSON.parse s with
        | none =>
          simp only [generatePortfolioContent, hp', hget, if_neg hse, hparse,
            remoteFetchStep_fail elems remote (removeItem portfolioKey store) dom hp hfail]
          exact ⟨rfl, rfl, Or.inr rfl⟩
        | some data =>
          by_cases hr : (populatePortfolioContent elems data dom).2 = true
          · simp only [generatePortfolioContent, hp', hget, if_neg hse, hparse, if_pos hr,
              remoteFetchStep_fail elems remote (removeItem portfolioKey store)
                (populatePortfolioContent elems data dom).1 hp hfail]
            exact ⟨rfl, rfl, Or.inr rfl⟩
          · simp only [generatePortfolioContent, hp', hget, if_neg hse, hparse] at hcalled
            simp [hr] at hcalled
  · rw [resolve_absent elems remote store dom (by simpa using hp)] at hcalled
    simp at hcalled

/-- Witness for C2: a throwing remote call on an empty cache. -/
theorem c2_remote_failure_renders_default_no_write_witness :
    (generatePortfolioContent ⟨true, true, true⟩ none [] ⟨"p", [], []⟩).dom = defaultDomContent
    ∧ (generatePortfolioContent ⟨true, true, true⟩ none [] ⟨"p", [], []⟩).wroteCache = false
    ∧ ((generatePortfolioContent ⟨true, true, true⟩ none [] ⟨"p", [], []⟩).store = []
       ∨ (generatePortfolioContent ⟨true, true, true⟩ none [] ⟨"p", [], []⟩).store
           = removeItem portfolioKey []) :=
  c2_remote_failure_renders_default_no_write _ _ _ _ (Or.inl rfl) rfl

/-! ### Decimal digits: the printer's digits parse back to the same number -/

/-- The digit character of `n` is a digit. -/
theorem digitChar_isDigit (n : Nat) : (digitChar n).isDigit = true := by
  have h : ∀ m, m < 10 → (Char.ofNat ('0'.toNat + m)).isDigit = true := by decide
  exact h (n % 10) (Nat.mod_lt _ (by omega))

/-- The digit character of `n` carries the value `n % 10`. -/
theorem digitChar_val (n : Nat) : (digitChar n).toNat - '0'.toNat = n % 10 := by
  have h : ∀ m, m < 10 → (Char.ofNat ('0'.toNat + m)).toNat - '0'.toNat = m := by decide
  exact h (n % 10) (Nat.mod_lt _ (by omega))

/-- The digit accumulator only ever rides along behind the digits, for any
sufficient fuel. -/
theorem natToCharsAux_acc (n : Nat) : ∀ f acc, n < f →
    natToCharsAux f n acc = natToChars n ++ acc := by
  induction n using Nat.strongRecOn with
  | _ n ih =>
    intro f acc hf
    match f, hf with
    | f + 1, _ =>
      by_cases h10 : n < 10
      · simp [natToCharsAux, natToChars, h10]
      · have hd : n / 10 < n := Nat.div_lt_self (by omega) (by omega)
        have lhs : natToCharsAux (f + 1) n acc
            = natToCharsAux f (n / 10) (digitChar (n % 10) :: acc) := by
          simp [natToCharsAux, h10]
        have rhs : natToChars n
            = natToCharsAux n (n / 10) (digitChar (n % 10) :: []) := by
          simp [natToChars, natToCharsAux, h10]
        rw [lhs, ih (n / 10) hd f _ (by omega), rhs, ih (n / 10) hd n _ (by omega)]
        simp

/-- Unfolding of `natToChars` with the least digit last. -/
theorem natToChars_step (n : Nat) :
    natToChars n =
      if n < 10 then [digitChar n]
      else natToChars (n / 10) ++ [digitChar (n % 10)] := by
  by_cases h10 : n < 10
  · simp [natToChars, natToCharsAux, h10]
  · have hd : n / 10 < n := Nat.div_lt_self (by omega) (by omega)
    have : natToChars n = natToCharsAux n (n / 10) (digitChar (n % 10) :: []) := by
      simp [natToChars, natToCharsAux, h10]
    rw [this, natToCharsAux_acc (n / 10) n _ (by omega)]
    simp [h10]

/-- Every printed digit character is a digit. -/
theorem natToChars_all_digits (n : Nat) : ∀ c ∈ natToChars n, c.isDigit = true := by
  induction n using Nat.strongRecOn with
  | _ n ih =>
    intro c hc
    rw [natToChars_step] at hc
    by_cases h10 : n < 10
    · rw [if_pos h10] at hc
      simp only [List.mem_singleton] at hc
      subst hc
      exact digitChar_isDigit n
    · simp only [if_neg h10, List.mem_append, List.mem_singleton] at hc
      rcases hc with hc | rfl
      · exact ih (n / 10) (Nat.div_lt_self (by omega) (by omega)) c hc
      · exact digitChar_isDigit (n % 10)

/-- The printed digits of a number are never empty. -/
theorem natToChars_ne_nil (n : Nat) : natToChars n ≠ [] := by
  rw [natToChars_step]
  by_cases h10 : n < 10 <;> simp [h10]

/-- A positive number's digits never start with `0`. -/
theorem natToChars_head_nonzero (n : Nat) (hn : n ≠ 0) :
    ∀ c t, natToChars n = c :: t → c ≠ '0' := by
  induction n using Nat.strongRecOn with
  | _ n ih =>
    intro c t hct
    rw [natToChars_step] at hct
    by_cases h10 : n < 10
    · rw [if_pos h10] at hct
      cases hct
      have h : ∀ m, m < 10 → m ≠ 0 → Char.ofNat ('0'.toNat + m % 10) ≠ '0' := by decide
      exact h n h10 hn
    · rw [if_neg h10] at hct
      obtain ⟨c0, t0, h0⟩ : ∃ c0 t0, natToChars (n / 10) = c0 :: t0 := by
        cases h : natToChars (n / 10) with
        | nil => exact absurd h (natToChars_ne_nil _)
        | cons a b => exact ⟨a, b, rfl⟩
      rw [h0] at hct
      simp only [List.cons_append, List.cons.injEq] at hct
      obtain ⟨rfl, -⟩ := hct
      exact ih (n / 10) (Nat.div_lt_self (by omega) (by omega)) (by omega) c0 t0 h0

/-- Lemma: `digitsVal` peels a trailing digit. -/
theorem digitsVal_append_digit (l : List Char) (d : Char) :
    digitsVal (l ++ [d]) = 10 * digitsVal l + (d.toNat - '0'.toNat) := by
  simp [digitsVal, List.foldl_append]

/-- Parsing value of the printed digits. -/
theorem digitsVal_natToChars (n : Nat) : digitsVal (natToChars n) = n := by
  induction n using Nat.strongRecOn with
  | _ n ih =>
    rw [natToChars_step]
    by_cases h10 : n < 10
    · rw [if_pos h10]
      have h1 : digitsVal ([] ++ [digitChar n]) = 10 * digitsVal [] + ((digitChar n).toNat - '0'.toNat) :=
        digitsVal_append_digit [] (digitChar n)
      simp only [List.nil_append] at h1
      rw [h1, digitChar_val]
      simp [digitsVal]
      omega
    · rw [if_neg h10, digitsVal_append_digit,
        ih (n / 10) (Nat.div_lt_self (by omega) (by omega)), digitChar_val]
      omega

/-- A digit run followed by a number stopper splits exactly there. -/
theorem span_digits_append (ds rest : List Char)
    (hds : ∀ c ∈ ds, c.isDigit = true) (hrest : numStop rest = true) :
    (ds ++ rest).takeWhile Char.isDigit = ds
    ∧ (ds ++ rest).dropWhile Char.isDigit = rest := by
  induction ds with
  | nil =>
    cases rest with
    | nil => simp
    | cons c t =>
      simp only [numStop, Bool.not_eq_true', Bool.or_eq_false_iff] at hrest
      simp [List.takeWhile_cons, List.dropWhile_cons, hrest.1.1.1]
  | cons d ds ih =>
    have hd : d.isDigit = true := hds d (by simp)
    have := ih (fun c hc => hds c (by simp [hc]))
    simp [List.takeWhile_cons, List.dropWhile_cons, hd, this.1, this.2]

/-- A number stopper passes the fraction/exponent tail check. -/
theorem numTail_stop (n : Nat) (rest : List Char) (hrest : numStop rest = true) :
    numTail n rest = some (n, rest) := by
  cases rest with
  | nil => rfl
  | cons c t =>
    simp only [numStop, Bool.not_eq_true', Bool.or_eq_false_iff,
      beq_eq_false_iff_ne] at hrest
    simp [numTail, hrest.1.1.2, hrest.1.2, hrest.2]

/-- The number-token round trip: printed digits of `n` followed by a stopper
parse back to `n`. -/
theorem parseNat_print (n : Nat) (rest : List Char) (hrest : numStop rest = true) :
    parseNat (natToChars n ++ rest) = some (n, rest) := by
  by_cases hn : n = 0
  · subst hn
    have h0 : natToChars 0 = ['0'] := by decide
    rw [h0]
    simp only [List.cons_append, List.nil_append, parseNat, if_pos rfl]
    exact numTail_stop 0 rest hrest
  · obtain ⟨c, t, hct⟩ : ∃ c t, natToChars n = c :: t := by
      cases h : natToChars n with
      | nil => exact absurd h (natToChars_ne_nil _)
      | cons a b => exact ⟨a, b, rfl⟩
    have hc0 : c ≠ '0' := natToChars_head_nonzero n hn c t hct
    have hcd : c.isDigit = true := natToChars_all_digits n c (by simp [hct])
    have htd : ∀ x ∈ t, x.isDigit = true :=
      fun x hx => natToChars_all_digits n x (by simp [hct, hx])
    have hspan := span_digits_append t rest htd hrest
    rw [hct]
    simp only [List.cons_append, parseNat, if_neg hc0, hcd, if_pos rfl, hspan.1, hspan.2]
    have : digitsVal (c :: t) = n := by rw [← hct, digitsVal_natToChars]
    rw [this]
    exact numTail_stop n rest hrest

/-! ### Strings: the printer's escapes parse back to the same characters -/

/-- Hexadecimal digit characters decode to their value. -/
theorem hexDigitVal_toHexChar (d : Nat) (h : d < 16) : hexDigitVal (toHexChar d) = some d := by
  have hall : ∀ m, m < 16 → hexDigitVal (toHexChar m) = some m := by decide
  exact hall d h

/-- Parsing one escaped character prepends exactly that character. -/
theorem parseStrBody_escape (c : Char) (tail : List Char) :
    parseStrBody (escapeChar c ++ tail) =
      (parseStrBody tail).map (fun p => (c :: p.1, p.2)) := by
  by_cases h1 : c = '"'
  · subst h1
    rw [show escapeChar '"' ++ tail = '\\' :: '"' :: tail from rfl, parseStrBody.eq_def]
    simp [simpleUnescape]
  · by_cases h2 : c = '\\'
    · subst h2
      rw [show escapeChar '\\' ++ tail = '\\' :: '\\' :: tail from rfl, parseStrBody.eq_def]
      simp [simpleUnescape]
    · by_cases h3 : c = Char.ofNat 8
      · subst h3
        rw [show escapeChar (Char.ofNat 8) ++ tail = '\\' :: 'b' :: tail from rfl,
          parseStrBody.eq_def]
        simp [simpleUnescape]
      · by_cases h4 : c = '\t'
        · subst h4
          rw [show escapeChar '\t' ++ tail = '\\' :: 't' :: tail from rfl, parseStrBody.eq_def]
          simp [simpleUnescape]
        · by_cases h5 : c = '\n'
          · subst h5
            rw [show escapeChar '\n' ++ tail = '\\' :: 'n' :: tail from rfl, parseStrBody.eq_def]
            simp [simpleUnescape]
          · by_cases h6 : c = Char.ofNat 12
            · subst h6
              rw [show escapeChar (Char.ofNat 12) ++ tail = '\\' :: 'f' :: tail from rfl,
                parseStrBody.eq_def]
              simp [simpleUnescape]
            · by_cases h7 : c = '\r'
              · subst h7
                rw [show escapeChar '\r' ++ tail = '\\' :: 'r' :: tail from rfl,
                  parseStrBody.eq_def]
                simp [simpleUnescape]
              · by_cases h8 : c.toNat < 0x20
                · have hesc : escapeChar c
                      = ['\\', 'u', '0', '0', toHexChar (c.toNat / 16),
                         toHexChar (c.toNat % 16)] := by
                    simp [escapeChar, h1, h2, h3, h4, h5, h6, h7, h8]
                  have hv1 : c.toNat / 16 < 16 := by omega
                  have hv2 : c.toNat % 16 < 16 := Nat.mod_lt _ (by omega)
                  have harith : ((0 * 16 + 0) * 16 + c.toNat / 16) * 16 + c.toNat % 16
                      = c.toNat := by omega
                  have hdec : decodeHex4 '0' '0' (toHexChar (c.toNat / 16))
                      (toHexChar (c.toNat % 16)) = some c := by
                    simp only [decodeHex4, hexDigitVal_toHexChar _ hv1,
                      hexDigitVal_toHexChar _ hv2,
                      show hexDigitVal '0' = some 0 from rfl, Option.bind_eq_bind,
                      Option.some_bind, harith]
                    rw [if_neg (by omega), Char.ofNat_toNat]
                  rw [hesc, show ['\\', 'u', '0', '0', toHexChar (c.toNat / 16),
                      toHexChar (c.toNat % 16)] ++ tail
                      = '\\' :: 'u' :: '0' :: '0' :: toHexChar (c.toNat / 16)
                        :: toHexChar (c.toNat % 16) :: tail from rfl,
                    parseStrBody.eq_def]
                  simp [hdec]
                · have hesc : escapeChar c = [c] := by
                    simp [escapeChar, h1, h2, h3, h4, h5, h6, h7, h8]
                  rw [hesc, List.singleton_append, parseStrBody.eq_def]
                  simp only []
                  rw [if_neg h1, if_neg h2, if_neg h8]

/-- The string-body round trip: an escaped character run followed by the
closing quote parses back to the run. -/
theorem parseStrBody_print (cs : List Char) : ∀ tail,
    parseStrBody (cs.flatMap escapeChar ++ '"' :: tail) = some (cs, tail) := by
  induction cs with
  | nil =>
    intro tail
    rw [List.flatMap_nil, List.nil_append, parseStrBody.eq_def]
    simp
  | cons c cs ih =>
    intro tail
    rw [List.flatMap_cons, List.append_assoc, parseStrBody_escape, ih]
    rfl

/-! ### Printed values: head characters, lengths, object assembly -/

/-- A digit character is none of the parser's structural characters. -/
theorem digit_char_facts (c : Char) (h : c.isDigit = true) :
    isJsWs c = false ∧ c ≠ 'n' ∧ c ≠ 't' ∧ c ≠ 'f' ∧ c ≠ '"' ∧ c ≠ '['
      ∧ c ≠ '\x7b' ∧ c ≠ ']' ∧ c ≠ '\x7d' ∧ c ≠ '-' := by
  refine ⟨?_, ?_, ?_, ?_, ?_, ?_, ?_, ?_, ?_, ?_⟩
  · cases hw : isJsWs c
    · rfl
    · exfalso
      simp only [isJsWs, Bool.or_eq_true, beq_iff_eq] at hw
      rcases hw with ((rfl | rfl) | rfl) | rfl <;> simp [Char.isDigit] at h
  all_goals (rintro rfl; simp [Char.isDigit] at h)

/-- Every printed value starts with a non-whitespace character that closes
nothing. -/
theorem printChars_head (j : Json) :
    ∃ c t, printChars j = c :: t ∧ isJsWs c = false ∧ c ≠ ']' ∧ c ≠ '\x7d' := by
  cases j with
  | null => exact ⟨'n', ['u', 'l', 'l'], rfl, by decide, by decide, by decide⟩
  | bool b =>
    cases b with
    | true => exact ⟨'t', ['r', 'u', 'e'], rfl, by decide, by decide, by decide⟩
    | false => exact ⟨'f', ['a', 'l', 's', 'e'], rfl, by decide, by decide, by decide⟩
  | num i =>
    by_cases hneg : i < 0
    · refine ⟨'-', natToChars i.natAbs, ?_, by decide, by decide, by decide⟩
      simp [printChars, intToChars, hneg]
    · obtain ⟨c, t, hct⟩ : ∃ c t, natToChars i.natAbs = c :: t := by
        cases h : natToChars i.natAbs with
        | nil => exact absurd h (natToChars_ne_nil _)
        | cons a b => exact ⟨a, b, rfl⟩
      have hcd : c.isDigit = true := natToChars_all_digits i.natAbs c (by rw [hct]; exact List.mem_cons_self c t)
      obtain ⟨hws, -, -, -, -, -, -, hbr, hbc, -⟩ := digit_char_facts c hcd
      refine ⟨c, t, ?_, hws, hbr, hbc⟩
      simp [printChars, intToChars, hneg, hct]
  | str s => exact ⟨'"', s.data.flatMap escapeChar ++ ['"'], rfl, by decide, by decide, by decide⟩
  | arr xs => exact ⟨'[', printElemsFirst xs ++ [']'], rfl, by decide, by decide, by decide⟩
  | obj kvs =>
    exact ⟨'\x7b', printFieldsFirst kvs ++ ['\x7d'], rfl, by decide, by decide, by decide⟩

/-- Skipping whitespace is the identity on input with a solid head. -/
theorem skipWs_not_ws (c : Char) (t : List Char) (h : isJsWs c = false) :
    skipWs (c :: t) = c :: t := by
  simp [skipWs, List.dropWhile_cons, h]

/-- Skipping whitespace is the identity on printed output. -/
theorem skipWs_print (j : Json) (x : List Char) :
    skipWs (printChars j ++ x) = printChars j ++ x := by
  obtain ⟨c, t, hct, hws, -, -⟩ := printChars_head j
  rw [hct, List.cons_append, skipWs_not_ws c _ hws]

/-- A printed value is nonempty. -/
theorem printChars_length_pos (j : Json) : 0 < (printChars j).length := by
  obtain ⟨c, t, hct, -⟩ := printChars_head j
  simp [hct]

/-- A later-element run is the first-element run after a comma. -/
theorem printElemsLater_cons (y : Json) (ys : List Json) :
    printElemsLater (y :: ys) = ',' :: printElemsFirst (y :: ys) := by
  simp [printElemsLater, printElemsFirst]

/-- A later-member run is the first-member run after a comma. -/
theorem printFieldsLater_cons (k : String) (v : Json) (kvs : List (String × Json)) :
    printFieldsLater ((k, v) :: kvs) = ',' :: printFieldsFirst ((k, v) :: kvs) := by
  simp [printFieldsLater, printFieldsFirst]

/-- The element count bounds the printed length of a later-element run. -/
theorem printElemsLater_count (ys : List Json) : ys.length ≤ (printElemsLater ys).length := by
  induction ys with
  | nil => simp [printElemsLater]
  | cons y ys ih =>
    have h1 : 0 < (printChars y).length := printChars_length_pos y
    simp only [printElemsLater, List.length_cons, List.length_append]
    omega

/-- The member count bounds the printed length of a later-member run. -/
theorem printFieldsLater_count (kvs : List (String × Json)) :
    kvs.length ≤ (printFieldsLater kvs).length := by
  induction kvs with
  | nil => simp [printFieldsLater]
  | cons kv kvs ih =>
    obtain ⟨k, v⟩ := kv
    have h1 : 0 < (printChars v).length := printChars_length_pos v
    simp only [printFieldsLater, List.length_cons, List.length_append]
    omega

/-- Each element's printed length is bounded by the whole run's. -/
theorem print_elem_bound (xs : List Json) (y : Json) (hy : y ∈ xs) :
    (printChars y).length ≤ (printElemsFirst xs).length := by
  induction xs with
  | nil => simp at hy
  | cons x xs ih =>
    rcases List.mem_cons.mp hy with rfl | hy2
    · simp only [printElemsFirst, List.length_append]
      omega
    · have h1 := ih hy2
      cases xs with
      | nil => simp at hy2
      | cons z zs =>
        have h2 : (printElemsFirst (z :: zs)).length ≤ (printElemsLater (z :: zs)).length := by
          rw [printElemsLater_cons]
          simp
        simp only [printElemsFirst, List.length_append]
        omega

/-- Each member value's printed length is bounded by the whole run's. -/
theorem print_field_bound (kvs : List (String × Json)) (k : String) (v : Json)
    (hkv : (k, v) ∈ kvs) :
    (printChars v).length ≤ (printFieldsFirst kvs).length := by
  induction kvs with
  | nil => simp at hkv
  | cons kv0 kvs ih =>
    obtain ⟨k0, v0⟩ := kv0
    rcases List.mem_cons.mp hkv with heq | h2
    · cases heq
      simp only [printFieldsFirst, List.length_append, List.length_cons]
      omega
    · have h1 := ih h2
      cases kvs with
      | nil => simp at h2
      | cons kv1 kvs1 =>
        obtain ⟨k1, v1⟩ := kv1
        have h3 : (printFieldsFirst ((k1, v1) :: kvs1)).length
            ≤ (printFieldsLater ((k1, v1) :: kvs1)).length := by
          rw [printFieldsLater_cons]
          simp
        simp only [printFieldsFirst, List.length_append, List.length_cons]
        omega

/-- Inserting a fresh key is appending. -/
theorem insertKV_fresh (acc : List (String × Json)) (k : String) (v : Json)
    (h : ∀ kv ∈ acc, kv.1 ≠ k) : insertKV acc k v = acc ++ [(k, v)] := by
  induction acc with
  | nil => rfl
  | cons kv0 acc ih =>
    obtain ⟨k0, v0⟩ := kv0
    have hk0 : k0 ≠ k := h (k0, v0) (by simp)
    simp [insertKV, hk0, ih (fun kv hkv => h kv (by simp [hkv]))]

/-- Folding insertions of pairwise-fresh keys over a disjoint accumulator is
plain concatenation. -/
theorem buildObj_go (kvs : List (String × Json)) : ∀ acc : List (String × Json),
    distinctKeys kvs = true →
    (∀ kv ∈ acc, ∀ kv2 ∈ kvs, kv.1 ≠ kv2.1) →
    kvs.foldl (fun a kv => insertKV a kv.1 kv.2) acc = acc ++ kvs := by
  induction kvs with
  | nil => intro acc _ _; simp
  | cons kv0 kvs ih =>
    intro acc hdk hdisj
    obtain ⟨k0, v0⟩ := kv0
    simp only [distinctKeys, Bool.and_eq_true, List.all_eq_true] at hdk
    simp only [List.foldl_cons]
    rw [show insertKV acc (k0, v0).1 (k0, v0).2 = insertKV acc k0 v0 from rfl,
      insertKV_fresh acc k0 v0 (fun kv hkv => hdisj kv hkv (k0, v0) (by simp))]
    rw [ih (acc ++ [(k0, v0)]) hdk.2 ?_]
    · simp
    · intro kv hkv kv2 hkv2
      rcases List.mem_append.mp hkv with h1 | h1
      · exact hdisj kv h1 kv2 (by simp [hkv2])
      · simp only [List.mem_singleton] at h1
        subst h1
        have := hdk.1 kv2 hkv2
        simp only [Bool.not_eq_true', beq_eq_false_iff_ne] at this
        exact fun he => this (he ▸ rfl)

/-- On distinct keys, the object assembler is the identity. -/
theorem buildObj_distinct (kvs : List (String × Json)) (h : distinctKeys kvs = true) :
    buildObj kvs = kvs := by
  have := buildObj_go kvs [] h (by simp)
  simpa [buildObj] using this

/-! ### The value round trip: parsing printed output -/

/-- A comma, closing bracket or closing brace stops a number. -/
theorem numStop_comma (t : List Char) : numStop (',' :: t) = true := by simp [numStop]

/-- A closing bracket stops a number. -/
theorem numStop_bracket (t : List Char) : numStop (']' :: t) = true := by simp [numStop]

/-- A closing brace stops a number. -/
theorem numStop_brace (t : List Char) : numStop ('\x7d' :: t) = true := by simp [numStop]

/-- Dispatch of the value parser on a digit head: straight to the number
token. -/
theorem parseValue_digit_step (f : Nat) (c : Char) (t : List Char) (h : c.isDigit = true) :
    parseValue (f + 1) (c :: t) =
      (match parseNat (c :: t) with
       | some (n, r) => some (.num (n : Int), r)
       | none => none) := by
  obtain ⟨hws, hn, ht, hf, hq, hbk, hbc, -, -, hm⟩ := digit_char_facts c h
  rw [parseValue.eq_def]
  simp [skipWs_not_ws c t hws, hn, ht, hf, hq, hbk, hbc, hm, h]

/-- Dispatch of the value parser on a minus head: negated number token. -/
theorem parseValue_minus_step (f : Nat) (t : List Char) :
    parseValue (f + 1) ('-' :: t) =
      (match parseNat t with
       | some (n, r) => some (.num (-(n : Int)), r)
       | none => none) := by
  rw [parseValue.eq_def]
  simp [skipWs_not_ws '-' t (by decide)]

/-- The printed-number round trip at the value level. -/
theorem parseValue_print_num (i : Int) (f : Nat) (rest : List Char)
    (hrest : numStop rest = true) :
    parseValue (f + 1) (printChars (.num i) ++ rest) = some (.num i, rest) := by
  by_cases hneg : i < 0
  · have hshape : printChars (.num i) ++ rest = '-' :: (natToChars i.natAbs ++ rest) := by
      simp [printChars, intToChars, hneg]
    rw [hshape, parseValue_minus_step, parseNat_print i.natAbs rest hrest]
    dsimp only
    have : -((i.natAbs : Nat) : Int) = i := by omega
    rw [this]
  · have hshape : printChars (.num i) ++ rest = natToChars i.natAbs ++ rest := by
      simp [printChars, intToChars, hneg]
    obtain ⟨c, t, hct⟩ : ∃ c t, natToChars i.natAbs = c :: t := by
      cases h : natToChars i.natAbs with
      | nil => exact absurd h (natToChars_ne_nil _)
      | cons a b => exact ⟨a, b, rfl⟩
    have hcd : c.isDigit = true :=
      natToChars_all_digits i.natAbs c (by rw [hct]; exact List.mem_cons_self c t)
    rw [hshape, hct, List.cons_append, parseValue_digit_step f c _ hcd,
      show c :: (t ++ rest) = (c :: t) ++ rest from rfl, ← hct,
      parseNat_print i.natAbs rest hrest]
    dsimp only
    have : ((i.natAbs : Nat) : Int) = i := by omega
    rw [this]

/-- The printed-string round trip at the value level. -/
theorem parseValue_print_str (s : String) (f : Nat) (rest : List Char) :
    parseValue (f + 1) (printChars (.str s) ++ rest) = some (.str s, rest) := by
  obtain ⟨sd⟩ := s
  have hshape : printChars (.str (String.mk sd)) ++ rest
      = '"' :: (sd.flatMap escapeChar ++ '"' :: rest) := by
    simp [printChars, strLitChars]
  rw [hshape, parseValue.eq_def]
  simp [skipWs_not_ws '"' _ (by decide), parseStrBody_print]

/-- The empty-array round trip at the value level. -/
theorem parseValue_print_arr_nil (f : Nat) (rest : List Char) :
    parseValue (f + 1) (printChars (.arr []) ++ rest) = some (.arr [], rest) := by
  rw [show printChars (.arr []) ++ rest = '[' :: ']' :: rest by simp [printChars, printElemsFirst],
    parseValue.eq_def]
  simp [skipWs_not_ws '[' _ (by decide), skipWs_not_ws ']' _ (by decide)]

/-- The empty-object round trip at the value level. -/
theorem parseValue_print_obj_nil (f : Nat) (rest : List Char) :
    parseValue (f + 1) (printChars (.obj []) ++ rest) = some (.obj [], rest) := by
  rw [show printChars (.obj []) ++ rest = '\x7b' :: '\x7d' :: rest by
      simp [printChars, printFieldsFirst],
    parseValue.eq_def]
  simp [skipWs_not_ws '\x7b' _ (by decide), skipWs_not_ws '\x7d' _ (by decide), buildObj]

/-- Dispatch of the value parser into a nonempty element chain. -/
theorem parseValue_arr_step (f : Nat) (c : Char) (t2 : List Char)
    (hws : isJsWs c = false) (hbr : c ≠ ']') :
    parseValue (f + 1) ('[' :: (c :: t2)) =
      (match parseElemChain (parseValue f) (f + 1) (c :: t2) with
       | some (vs, r) => some (.arr vs, r)
       | none => none) := by
  rw [parseValue.eq_def]
  simp [skipWs_not_ws '[' _ (by decide), skipWs_not_ws c t2 hws, hbr]

/-- Dispatch of the value parser into a nonempty member chain. -/
theorem parseValue_obj_step (f : Nat) (c : Char) (t2 : List Char)
    (hws : isJsWs c = false) (hbc : c ≠ '\x7d') :
    parseValue (f + 1) ('\x7b' :: (c :: t2)) =
      (match parseFieldChain (parseValue f) (f + 1) (c :: t2) with
       | some (kvs, r) => some (.obj (buildObj kvs), r)
       | none => none) := by
  rw [parseValue.eq_def]
  simp [skipWs_not_ws '\x7b' _ (by decide), skipWs_not_ws c t2 hws, hbc]

/-- One-step unfolding of element well-formedness. -/
theorem wfElems_cons_iff (x : Json) (xs : List Json) :
    wfElems (x :: xs) = (x.wf && wfElems xs) := by
  simp [wfElems]

/-- One-step unfolding of member well-formedness. -/
theorem wfFields_cons_iff (kv : String × Json) (kvs : List (String × Json)) :
    wfFields (kv :: kvs) = (kv.2.wf && wfFields kvs) := by
  simp [wfFields]

/-- Unfolding of array well-formedness. -/
theorem wf_arr_iff (xs : List Json) : (Json.arr xs).wf = wfElems xs := by
  simp [Json.wf]

/-- Unfolding of object well-formedness. -/
theorem wf_obj_iff (kvs : List (String × Json)) :
    (Json.obj kvs).wf = (distinctKeys kvs && wfFields kvs) := by
  simp [Json.wf]

mutual

/-- Round trip for one value: parsing its print with any stopper suffix
yields it back, given enough fuel. -/
theorem rtValue : ∀ (j : Json) (fuel : Nat) (rest : List Char),
    Json.wf j = true → (printChars j).length < fuel → numStop rest = true →
    parseValue fuel (printChars j ++ rest) = some (j, rest)
  | _, 0, _, _, hf, _ => absurd hf (by omega)
  | .null, fuel + 1, rest, _, _, _ => by
    rw [show printChars Json.null ++ rest = 'n' :: 'u' :: 'l' :: 'l' :: rest from rfl,
      parseValue.eq_def]
    simp [skipWs_not_ws 'n' _ (by decide)]
  | .bool true, fuel + 1, rest, _, _, _ => by
    rw [show printChars (Json.bool true) ++ rest = 't' :: 'r' :: 'u' :: 'e' :: rest from rfl,
      parseValue.eq_def]
    simp [skipWs_not_ws 't' _ (by decide)]
  | .bool false, fuel + 1, rest, _, _, _ => by
    rw [show printChars (Json.bool false) ++ rest
        = 'f' :: 'a' :: 'l' :: 's' :: 'e' :: rest from rfl,
      parseValue.eq_def]
    simp [skipWs_not_ws 'f' _ (by decide)]
  | .num i, fuel + 1, rest, _, _, hr => parseValue_print_num i fuel rest hr
  | .str s, fuel + 1, rest, _, _, _ => parseValue_print_str s fuel rest
  | .arr [], fuel + 1, rest, _, _, _ => parseValue_print_arr_nil fuel rest
  | .arr (z :: zs), fuel + 1, rest, hw, hf, _ => by
    rw [wf_arr_iff] at hw
    obtain ⟨c, t, hct, hws, hbr, -⟩ := printChars_head z
    have hshape : printElemsFirst (z :: zs) ++ ']' :: rest
        = c :: (t ++ (printElemsLater zs ++ ']' :: rest)) := by
      simp [printElemsFirst, hct]
    have hlen : (printElemsFirst (z :: zs)).length + 2 ≤ fuel := by
      have h0 : (printChars (Json.arr (z :: zs))).length
          = (printElemsFirst (z :: zs)).length + 2 := by
        simp [printChars]
      omega
    have hbound : ∀ y ∈ z :: zs, (printChars y).length < fuel := by
      intro y hy
      have := print_elem_bound (z :: zs) y hy
      omega
    have hcount : zs.length < fuel + 1 := by
      have h1 : zs.length ≤ (printElemsLater zs).length := printElemsLater_count zs
      have h2 : (printElemsFirst (z :: zs)).length
          = (printChars z).length + (printElemsLater zs).length := by
        simp [printElemsFirst]
      omega
    have key := rtChain z zs fuel (fuel + 1) rest hw hbound hcount
    rw [hshape] at key
    rw [show printChars (Json.arr (z :: zs)) ++ rest
        = '[' :: (printElemsFirst (z :: zs) ++ ']' :: rest) by
        simp [printChars],
      hshape, parseValue_arr_step fuel c _ hws hbr, key]
  | .obj [], fuel + 1, rest, _, _, _ => parseValue_print_obj_nil fuel rest
  | .obj ((k, v) :: kvs), fuel + 1, rest, hw, hf, _ => by
    rw [wf_obj_iff, Bool.and_eq_true] at hw
    obtain ⟨hdk, hwfld⟩ := hw
    have hshape : printFieldsFirst ((k, v) :: kvs) ++ '\x7d' :: rest
        = '"' :: ((k.data.flatMap escapeChar ++ ['"'])
            ++ (':' :: (printChars v ++ (printFieldsLater kvs ++ '\x7d' :: rest)))) := by
      simp [printFieldsFirst, strLitChars]
    have hlen : (printFieldsFirst ((k, v) :: kvs)).length + 2 ≤ fuel := by
      have h0 : (printChars (Json.obj ((k, v) :: kvs))).length
          = (printFieldsFirst ((k, v) :: kvs)).length + 2 := by
        simp [printChars]
      omega
    have hbound : ∀ kv ∈ (k, v) :: kvs, (printChars kv.2).length < fuel := by
      intro kv hkv
      have := print_field_bound ((k, v) :: kvs) kv.1 kv.2 (by simpa using hkv)
      omega
    have hcount : kvs.length < fuel + 1 := by
      have h1 : kvs.length ≤ (printFieldsLater kvs).length := printFieldsLater_count kvs
      have h2 : (printFieldsFirst ((k, v) :: kvs)).length
          = (strLitChars k).length + (1 + ((printChars v).length
              + (printFieldsLater kvs).length)) := by
        simp [printFieldsFirst]
        omega
      omega
    have key := rtFields k v kvs fuel (fuel + 1) rest hwfld hbound hcount
    rw [hshape] at key
    rw [show printChars (Json.obj ((k, v) :: kvs)) ++ rest
        = '\x7b' :: (printFieldsFirst ((k, v) :: kvs) ++ '\x7d' :: rest) by
        simp [printChars],
      hshape, parseValue_obj_step fuel '"' _ (by decide) (by decide), key]
    dsimp only
    rw [buildObj_distinct ((k, v) :: kvs) hdk]
  termination_by j _ _ _ _ _ => sizeOf j
  decreasing_by all_goals (simp_wf; try omega)

/-- Round trip for a nonempty comma-separated element chain up to its
closing bracket. -/
theorem rtChain : ∀ (x : Json) (xs : List Json) (f g : Nat) (rest : List Char),
    wfElems (x :: xs) = true →
    (∀ y ∈ x :: xs, (printChars y).length < f) →
    xs.length < g →
    parseElemChain (parseValue f) g (printElemsFirst (x :: xs) ++ ']' :: rest)
      = some (x :: xs, rest)
  | x, [], f, g, rest, hw, hb, hg => by
    rw [wfElems_cons_iff, Bool.and_eq_true] at hw
    have hbx : (printChars x).length < f := hb x (by simp)
    cases g with
    | zero => exact absurd hg (Nat.not_lt_zero _)
    | succ g =>
      have hv := rtValue x f (']' :: rest) hw.1 hbx (numStop_bracket rest)
      have hshape : printElemsFirst [x] ++ ']' :: rest = printChars x ++ ']' :: rest := by
        simp [printElemsFirst, printElemsLater]
      rw [hshape]
      simp only [parseElemChain]
      rw [hv]
      simp [skipWs_not_ws ']' _ (by decide)]
  | x, y :: ys, f, g, rest, hw, hb, hg => by
    rw [wfElems_cons_iff, Bool.and_eq_true] at hw
    have hbx : (printChars x).length < f := hb x (by simp)
    cases g with
    | zero => exact absurd hg (Nat.not_lt_zero _)
    | succ g =>
      have hbt : ∀ z2 ∈ y :: ys, (printChars z2).length < f :=
        fun z2 hz => hb z2 (by simp [hz])
      have hgt : ys.length < g := by
        simp only [List.length_cons] at hg
        omega
      have key := rtChain y ys f g rest hw.2 hbt hgt
      have hv := rtValue x f (',' :: (printElemsFirst (y :: ys) ++ ']' :: rest)) hw.1 hbx
        (numStop_comma _)
      have hshape : printElemsFirst (x :: y :: ys) ++ ']' :: rest
          = printChars x ++ (',' :: (printElemsFirst (y :: ys) ++ ']' :: rest)) := by
        rw [show printElemsFirst (x :: y :: ys)
            = printChars x ++ printElemsLater (y :: ys) by simp [printElemsFirst],
          printElemsLater_cons]
        simp
      rw [hshape]
      simp only [parseElemChain]
      rw [hv]
      simp only [skipWs_not_ws ',' _ (by decide)]
      rw [key]
  termination_by x xs _ _ _ _ _ _ => sizeOf x + sizeOf xs
  decreasing_by all_goals (simp_wf; try omega)

/-- Round trip for a nonempty comma-separated member chain up to its closing
brace. -/
theorem rtFields : ∀ (k : String) (v : Json) (kvs : List (String × Json)) (f g : Nat)
    (rest : List Char),
    wfFields ((k, v) :: kvs) = true →
    (∀ kv ∈ (k, v) :: kvs, (printChars kv.2).length < f) →
    kvs.length < g →
    parseFieldChain (parseValue f) g (printFieldsFirst ((k, v) :: kvs) ++ '\x7d' :: rest)
      = some ((k, v) :: kvs, rest)
  | k, v, [], f, g, rest, hw, hb, hg => by
    rw [wfFields_cons_iff, Bool.and_eq_true] at hw
    have hbv : (printChars v).length < f := hb (k, v) (by simp)
    cases g with
    | zero => exact absurd hg (Nat.not_lt_zero _)
    | succ g =>
      have hv := rtValue v f ('\x7d' :: rest) hw.1 hbv (numStop_brace rest)
      have hshape : printFieldsFirst [(k, v)] ++ '\x7d' :: rest
          = '"' :: (k.data.flatMap escapeChar
              ++ '"' :: (':' :: (printChars v ++ '\x7d' :: rest))) := by
        simp [printFieldsFirst, printFieldsLater, strLitChars]
      rw [hshape]
      simp only [parseFieldChain]
      rw [skipWs_not_ws '"' _ (by decide)]
      simp only []
      rw [parseStrBody_print k.data (':' :: (printChars v ++ '\x7d' :: rest))]
      simp only [skipWs_not_ws ':' _ (by decide)]
      rw [hv]
      simp [skipWs_not_ws '\x7d' _ (by decide)]
  | k, v, (k2, v2) :: kvs2, f, g, rest, hw, hb, hg => by
    rw [wfFields_cons_iff, Bool.and_eq_true] at hw
    have hbv : (printChars v).length < f := hb (k, v) (by simp)
    cases g with
    | zero => exact absurd hg (Nat.not_lt_zero _)
    | succ g =>
      have hbt : ∀ kv3 ∈ (k2, v2) :: kvs2, (printChars kv3.2).length < f :=
        fun kv3 hkv3 => hb kv3 (by simp [hkv3])
      have hgt : kvs2.length < g := by
        simp only [List.length_cons] at hg
        omega
      have key := rtFields k2 v2 kvs2 f g rest hw.2 hbt hgt
      have hv := rtValue v f
        (',' :: (printFieldsFirst ((k2, v2) :: kvs2) ++ '\x7d' :: rest)) hw.1 hbv
        (numStop_comma _)
      have hshape : printFieldsFirst ((k, v) :: (k2, v2) :: kvs2) ++ '\x7d' :: rest
          = '"' :: (k.data.flatMap escapeChar
              ++ '"' :: (':' :: (printChars v
                ++ (',' :: (printFieldsFirst ((k2, v2) :: kvs2) ++ '\x7d' :: rest))))) := by
        rw [show printFieldsFirst ((k, v) :: (k2, v2) :: kvs2)
            = strLitChars k ++ ':' :: (printChars v ++ printFieldsLater ((k2, v2) :: kvs2))
            by simp [printFieldsFirst],
          printFieldsLater_cons]
        simp [strLitChars]
      rw [hshape]
      simp only [parseFieldChain]
      rw [skipWs_not_ws '"' _ (by decide)]
      simp only []
      rw [parseStrBody_print k.data
        (':' :: (printChars v ++ (',' :: (printFieldsFirst ((k2, v2) :: kvs2) ++ '\x7d' :: rest))))]
      simp only [skipWs_not_ws ':' _ (by decide)]
      rw [hv]
      simp only [skipWs_not_ws ',' _ (by decide)]
      rw [key]
  termination_by k v kvs _ _ _ _ _ _ => sizeOf v + sizeOf kvs
  decreasing_by all_goals (simp_wf; try omega)

end

/-- The parse-then-print round trip on the whole document: `JSON.parse`
inverts `JSON.stringify` on runtime-representable values. -/
theorem parse_stringify (j : Json) (hw : Json.wf j = true) :
    JSON.parse (JSON.stringify j) = some j := by
  have h1 : (JSON.stringify j).data = printChars j := rfl
  simp only [JSON.parse, h1]
  have h2 := rtValue j ((printChars j).length + 1) [] hw (by omega) (by simp [numStop])
  rw [List.append_nil] at h2
  rw [h2]
  simp [skipWs]

/-- Fresh-key insertion keeps every key distinct from a given outsider. -/
theorem insertKV_all_keys (kvs : List (String × Json)) (k : String) (v : Json) (k0 : String)
    (hk : (k == k0) = false)
    (h : kvs.all (fun kv => !(kv.1 == k0)) = true) :
    (insertKV kvs k v).all (fun kv => !(kv.1 == k0)) = true := by
  induction kvs with
  | nil => simp [insertKV, hk]
  | cons kv1 kvs ih =>
    obtain ⟨k1, v1⟩ := kv1
    simp only [List.all_cons, Bool.and_eq_true] at h
    by_cases h1 : k1 = k
    · subst h1
      simp [insertKV, h.1, h.2]
    · simp only [insertKV, if_neg h1, List.all_cons, Bool.and_eq_true]
      exact ⟨h.1, ih h.2⟩

/-- Insertion preserves key distinctness. -/
theorem insertKV_distinct (kvs : List (String × Json)) (k : String) (v : Json)
    (h : distinctKeys kvs = true) : distinctKeys (insertKV kvs k v) = true := by
  induction kvs with
  | nil => simp [insertKV, distinctKeys]
  | cons kv1 kvs ih =>
    obtain ⟨k1, v1⟩ := kv1
    simp only [distinctKeys, Bool.and_eq_true] at h
    by_cases h1 : k1 = k
    · subst h1
      simp only [insertKV, if_pos rfl, distinctKeys, Bool.and_eq_true]
      exact ⟨h.1, h.2⟩
    · simp only [insertKV, if_neg h1, distinctKeys, Bool.and_eq_true]
      refine ⟨?_, ih h.2⟩
      exact insertKV_all_keys kvs k v k1 (by simpa using fun he => h1 he.symm) h.1

/-- Insertion preserves member-value well-formedness. -/
theorem insertKV_wfFields (kvs : List (String × Json)) (k : String) (v : Json)
    (hv : Json.wf v = true) (h : wfFields kvs = true) :
    wfFields (insertKV kvs k v) = true := by
  induction kvs with
  | nil => simp [insertKV, wfFields, hv]
  | cons kv1 kvs ih =>
    obtain ⟨k1, v1⟩ := kv1
    rw [wfFields_cons_iff, Bool.and_eq_true] at h
    by_cases h1 : k1 = k
    · subst h1
      have he : insertKV ((k1, v1) :: kvs) k1 v = (k1, v) :: kvs := by simp [insertKV]
      rw [he, wfFields_cons_iff, Bool.and_eq_true]
      exact ⟨hv, h.2⟩
    · simp only [insertKV, if_neg h1]
      rw [wfFields_cons_iff, Bool.and_eq_true]
      exact ⟨h.1, ih h.2⟩

/-- Folding well-formed insertions keeps the accumulated fields
runtime-representable. -/
theorem buildObj_go_wf : ∀ pairs acc : List (String × Json),
    distinctKeys acc = true → wfFields acc = true → wfFields pairs = true →
    distinctKeys (pairs.foldl (fun a kv => insertKV a kv.1 kv.2) acc) = true
    ∧ wfFields (pairs.foldl (fun a kv => insertKV a kv.1 kv.2) acc) = true := by
  intro pairs
  induction pairs with
  | nil => intro acc h1 h2 _; exact ⟨h1, h2⟩
  | cons kv pairs ih =>
    intro acc h1 h2 h3
    obtain ⟨k, v⟩ := kv
    rw [wfFields_cons_iff, Bool.and_eq_true] at h3
    simp only [List.foldl_cons]
    exact ih (insertKV acc k v) (insertKV_distinct acc k v h1)
      (insertKV_wfFields acc k v h3.1 h2) h3.2

/-- The object assembler always yields a runtime-representable field list. -/
theorem buildObj_wf (pairs : List (String × Json)) (hp : wfFields pairs = true) :
    distinctKeys (buildObj pairs) = true ∧ wfFields (buildObj pairs) = true :=
  buildObj_go_wf pairs [] (by simp [distinctKeys]) (by simp [wfFields]) hp

/-- Everything an element chain returns is well formed, provided the element
parser only returns well-formed values. -/
theorem chainElems_wf (pv : List Char → Option (Json × List Char))
    (hpv : ∀ cs j r, pv cs = some (j, r) → Json.wf j = true) :
    ∀ g cs vs r, parseElemChain pv g cs = some (vs, r) → wfElems vs = true := by
  intro g
  induction g with
  | zero => intro cs vs r h; simp [parseElemChain] at h
  | succ g ih =>
    intro cs vs r h
    simp only [parseElemChain] at h
    cases hp : pv cs with
    | none => rw [hp] at h; simp at h
    | some p =>
      obtain ⟨v, r1⟩ := p
      rw [hp] at h
      dsimp only at h
      split at h
      · split at h
        · cases h
          rw [wfElems_cons_iff, Bool.and_eq_true]
          exact ⟨hpv cs v r1 hp, ih _ _ _ (by assumption)⟩
        · cases h
      · cases h
        rw [wfElems_cons_iff, Bool.and_eq_true]
        exact ⟨hpv cs v r1 hp, by simp [wfElems]⟩
      · cases h

/-- Everything a member chain returns is well formed, provided the value
parser only returns well-formed values. -/
theorem chainFields_wf (pv : List Char → Option (Json × List Char))
    (hpv : ∀ cs j r, pv cs = some (j, r) → Json.wf j = true) :
    ∀ g cs kvs r, parseFieldChain pv g cs = some (kvs, r) → wfFields kvs = true := by
  intro g
  induction g with
  | zero => intro cs kvs r h; simp [parseFieldChain] at h
  | succ g ih =>
    intro cs kvs r h
    simp only [parseFieldChain] at h
    split at h
    · rename_i kcs0 r0
      split at h
      · cases h
      · rename_i p hstr
        split at h
        · rename_i r2 hcol
          cases hp : pv r2 with
          | none => rw [hp] at h; cases h
          | some pv2 =>
            obtain ⟨v, r3⟩ := pv2
            rw [hp] at h
            dsimp only at h
            split at h
            · split at h
              · cases h
                rw [wfFields_cons_iff, Bool.and_eq_true]
                exact ⟨hpv r2 v r3 hp, ih _ _ _ (by assumption)⟩
              · cases h
            · cases h
              rw [wfFields_cons_iff, Bool.and_eq_true]
              exact ⟨hpv r2 v r3 hp, by simp [wfFields]⟩
            · cases h
        · cases h
    · cases h

/-- Every value the parser returns is runtime-representable (in particular,
its objects have pairwise-distinct keys at every level). -/
theorem parseValue_wf : ∀ (fuel : Nat) (cs : List Char) (j : Json) (r : List Char),
    parseValue fuel cs = some (j, r) → Json.wf j = true := by
  intro fuel
  induction fuel with
  | zero => intro cs j r h; simp [parseValue] at h
  | succ f ih =>
    intro cs j r h
    rw [parseValue.eq_def] at h
    dsimp only at h
    cases hs : skipWs cs with
    | nil => rw [hs] at h; simp at h
    | cons c rest =>
      rw [hs] at h
      dsimp only at h
      split_ifs at h with h1 h2 h3 h4 h5 h6 h7 h8
      · split at h
        · cases h; rfl
        · cases h
      · split at h
        · cases h; rfl
        · cases h
      · split at h
        · cases h; rfl
        · cases h
      · split at h
        · cases h; rfl
        · cases h
      · split at h
        · cases h
        · split at h
          · cases h; rw [wf_arr_iff]; rfl
          · split at h
            · cases h
              rw [wf_arr_iff]
              exact chainElems_wf (parseValue f) (fun cs2 j2 r2 hp => ih cs2 j2 r2 hp)
                _ _ _ _ (by assumption)
            · cases h
      · split at h
        · cases h
        · split at h
          · cases h; rw [wf_obj_iff]; rfl
          · split at h
            · rename_i kvs0 r0 hchain
              cases h
              rw [wf_obj_iff, Bool.and_eq_true]
              have hflds : wfFields kvs0 = true :=
                chainFields_wf (parseValue f) (fun cs2 j2 r2 hp => ih cs2 j2 r2 hp)
                  _ _ _ _ hchain
              obtain ⟨hd, hf2⟩ := buildObj_wf kvs0 hflds
              exact ⟨hd, hf2⟩
            · cases h
      · split at h
        · cases h; rfl
        · cases h
      · split at h
        · cases h; rfl
        · cases h

/-- Every value `JSON.parse` returns is runtime-representable. -/
theorem parse_wf (s : String) (j : Json) (h : JSON.parse s = some j) :
    Json.wf j = true := by
  simp only [JSON.parse] at h
  cases hp : parseValue (s.data.length + 1) s.data with
  | none => rw [hp] at h; simp at h
  | some p =>
    obtain ⟨j2, r⟩ := p
    rw [hp] at h
    dsimp only at h
    split_ifs at h
    cases h
    exact parseValue_wf _ _ _ _ hp

/-- Every value the fence parser returns is runtime-representable. -/
theorem parseGeminiJson_wf (t : String) (j : Json) (h : parseGeminiJson t = some j) :
    Json.wf j = true := by
  simp only [parseGeminiJson] at h
  exact parse_wf _ _ h

/-- Reading back an in-place replacement. -/
theorem getItem_replace (k v : String) (store : Store)
    (h : store.any (fun kv => kv.1 == k) = true) :
    getItem k (store.map (fun kv => if kv.1 == k then (kv.1, v) else kv)) = some v := by
  induction store with
  | nil => simp at h
  | cons kv0 st ih =>
    simp only [List.any_cons, Bool.or_eq_true] at h
    simp only [List.map_cons]
    by_cases hk : (kv0.1 == k) = true
    · rw [if_pos hk]
      simp [getItem, List.find?_cons, hk]
    · have hkf : (kv0.1 == k) = false := by
        cases hq : (kv0.1 == k) with
        | false => rfl
        | true => exact absurd hq hk
      have h2 : st.any (fun kv => kv.1 == k) = true := by
        rcases h with h | h
        · exact absurd h hk
        · exact h
      rw [if_neg hk]
      simp only [getItem, List.find?_cons, hkf]
      simpa [getItem] using ih h2

/-- Reading back an appended fresh entry. -/
theorem getItem_append_fresh (k v : String) (store : Store)
    (h : store.any (fun kv => kv.1 == k) = false) :
    getItem k (store ++ [(k, v)]) = some v := by
  induction store with
  | nil => simp [getItem, List.find?_cons]
  | cons kv0 st ih =>
    simp only [List.any_cons, Bool.or_eq_false_iff] at h
    simp only [List.cons_append, getItem, List.find?_cons, h.1]
    simpa [getItem] using ih h.2

/-- Writing with `setItem` and then reading the same key with `getItem` yields the written
value. -/
theorem getItem_setItem (k v : String) (store : Store) :
    getItem k (setItem k v store) = some v := by
  simp only [setItem]
  split
  · exact getItem_replace k v store (by assumption)
  · rename_i hany
    refine getItem_append_fresh k v store ?_
    cases hq : store.any (fun kv => kv.1 == k) with
    | false => rfl
    | true => exact absurd hq hany

/-- When the fetch phase writes, it writes the serialization of the data it
just parsed and rendered. -/
theorem remoteFetchStep_wrote (elems : Elements) (remote : RemoteBehavior)
    (store0 : Store) (dom0 : DomContent)
    (hwr : (remoteFetchStep elems remote store0 dom0).wroteCache = true) :
    ∃ text data, remote = some text ∧ parseGeminiJson text = some data
      ∧ (populatePortfolioContent elems data dom0).2 = false
      ∧ remoteFetchStep elems remote store0 dom0
          = ⟨setItem portfolioKey (JSON.stringify data) store0,
             (populatePortfolioContent elems data dom0).1, true⟩ := by
  cases remote with
  | none => simp [remoteFetchStep] at hwr
  | some text =>
    cases hparse : parseGeminiJson text with
    | none => simp [remoteFetchStep, hparse] at hwr
    | some data =>
      by_cases hr : (populatePortfolioContent elems data dom0).2 = true
      · simp [remoteFetchStep, hparse, hr] at hwr
      · refine ⟨text, data, rfl, hparse, by simpa using hr, ?_⟩
        simp [remoteFetchStep, hparse, hr]

/-- C4.  Whenever a resolution writes to the cache, the written string is the
serialization of the very object handed to the View Populator on that run,
and parsing that string back yields an object deep-equal to it. -/
theorem c4_cache_write_roundtrips (elems : Elements) (remote : RemoteBehavior)
    (store : Store) (dom : DomContent)
    (hw : (generatePortfolioContent elems remote store dom).wroteCache = true) :
    ∃ text data dom1,
      remote = some text
      ∧ parseGeminiJson text = some data
      ∧ (generatePortfolioContent elems remote store dom).dom
          = (populatePortfolioContent elems data dom1).1
      ∧ getItem portfolioKey (generatePortfolioContent elems remote store dom).store
          = some (JSON.stringify data)
      ∧ JSON.parse (JSON.stringify data) = some data := by
  by_cases hp : elems.allPresent = true
  · have hp' := hp
    simp only [Elements.allPresent] at hp'
    cases hget : getItem portfolioKey store with
    | none =>
      simp only [generatePortfolioContent, hp', hget] at hw ⊢
      rw [if_neg (by decide)] at hw ⊢
      dsimp only at hw ⊢
      obtain ⟨text, data, rfl, hparse, hnothrow, heq⟩ :=
        remoteFetchStep_wrote elems remote store dom hw
      refine ⟨text, data, dom, rfl, hparse, ?_, ?_,
        parse_stringify data (parseGeminiJson_wf text data hparse)⟩
      · rw [heq]
      · rw [heq]
        exact getItem_setItem _ _ _
    | some s =>
      by_cases hse : s = ""
      · subst hse
        rw [resolve_empty_cached elems remote store dom hp hget] at hw ⊢
        dsimp only at hw ⊢
        obtain ⟨text, data, rfl, hparse, hnothrow, heq⟩ :=
          remoteFetchStep_wrote elems remote store dom hw
        refine ⟨text, data, dom, rfl, hparse, ?_, ?_,
          parse_stringify data (parseGeminiJson_wf text data hparse)⟩
        · rw [heq]
        · rw [heq]
          exact getItem_setItem _ _ _
      · cases hparse0 : JSON.parse s with
        | none =>
          simp only [generatePortfolioContent, hp', hget, if_neg hse, hparse0] at hw ⊢
          rw [if_neg (by decide)] at hw ⊢
          dsimp only at hw ⊢
          obtain ⟨text, data, rfl, hparse, hnothrow, heq⟩ :=
            remoteFetchStep_wrote elems remote (removeItem portfolioKey store) dom hw
          refine ⟨text, data, dom, rfl, hparse, ?_, ?_,
            parse_stringify data (parseGeminiJson_wf text data hparse)⟩
          · rw [heq]
          · rw [heq]
            exact getItem_setItem _ _ _
        | some data0 =>
          by_cases hr : (populatePortfolioContent elems data0 dom).2 = true
          · simp only [generatePortfolioContent, hp', hget, if_neg hse, hparse0,
              if_pos hr] at hw ⊢
            rw [if_neg (by decide)] at hw ⊢
            dsimp only at hw ⊢
            obtain ⟨text, data, rfl, hparse, hnothrow, heq⟩ :=
              remoteFetchStep_wrote elems remote (removeItem portfolioKey store)
                (populatePortfolioContent elems data0 dom).1 hw
            refine ⟨text, data, (populatePortfolioContent elems data0 dom).1, rfl, hparse, ?_, ?_,
              parse_stringify data (parseGeminiJson_wf text data hparse)⟩
            · rw [heq]
            · rw [heq]
              exact getItem_setItem _ _ _
          · simp only [generatePortfolioContent, hp', hget, if_neg hse, hparse0] at hw
            simp [hr] at hw
  · rw [resolve_absent elems remote store dom (by simpa using hp)] at hw
    simp at hw

/-- Witness for C4: a concrete successful remote response is cached and the
cached string parses back to the rendered object. -/
theorem c4_cache_write_roundtrips_witness :
    ∃ text data dom1,
      (some "\x7b\"biography\":\"B\",\"skills\":[],\"projects\":[]\x7d" : RemoteBehavior)
          = some text
      ∧ parseGeminiJson text = some data
      ∧ (generatePortfolioContent ⟨true, true, true⟩
          (some "\x7b\"biography\":\"B\",\"skills\":[],\"projects\":[]\x7d") [] ⟨"p", [], []⟩).dom
          = (populatePortfolioContent ⟨true, true, true⟩ data dom1).1
      ∧ getItem portfolioKey (generatePortfolioContent ⟨true, true, true⟩
          (some "\x7b\"biography\":\"B\",\"skills\":[],\"projects\":[]\x7d") [] ⟨"p", [], []⟩).store
          = some (JSON.stringify data)
      ∧ JSON.parse (JSON.stringify data) = some data :=
  c4_cache_write_roundtrips ⟨true, true, true⟩
    (some "\x7b\"biography\":\"B\",\"skills\":[],\"projects\":[]\x7d") [] ⟨"p", [], []⟩ rfl
/-- A list with a true `isPrefixOf` is an actual prefix: the longer list is
the shorter followed by some tail. -/
theorem isPrefixOf_append (l₁ : List Char) : ∀ l₂ : List Char,
    l₁.isPrefixOf l₂ = true → ∃ t, l₂ = l₁ ++ t := by
  induction l₁ with
  | nil => exact fun l₂ _ => ⟨l₂, rfl⟩
  | cons a l ih =>
    intro l₂ h
    cases l₂ with
    | nil => simp [List.isPrefixOf] at h
    | cons b t =>
      simp only [List.isPrefixOf, Bool.and_eq_true, beq_iff_eq] at h
      obtain ⟨rfl, h2⟩ := h
      obtain ⟨t2, rfl⟩ := ih t h2
      exact ⟨t2, rfl⟩

/-- No JSON value begins with a backtick (character 96), whatever the fuel:
every dispatch arm of the value parser rejects it. -/
theorem parseValue_backtick (fuel : Nat) (rest : List Char) :
    parseValue fuel (Char.ofNat 96 :: rest) = none := by
  cases fuel with
  | zero => rfl
  | succ f =>
    rw [parseValue.eq_def]
    simp only [skipWs_not_ws (Char.ofNat 96) rest (by decide)]
    simp

/-- Parsing any string whose character list begins with a backtick throws. -/
theorem parse_backtick_head (cs : List Char) :
    JSON.parse (String.mk (Char.ofNat 96 :: cs)) = none := by
  simp only [JSON.parse]
  rw [parseValue_backtick]

/-- C5.  The fence parser, on every input: (a) whenever the trimmed text is
wholly wrapped in a ```json … ``` fence — it starts with the 7-character
opener, ends with the 3-character closer, and is long enough for the two not
to overlap, which is exactly when the source's anchored regex matches — the
result is the JSON parse of the fenced interior (the text strictly between
the markers, whitespace-trimmed); (b) whenever the trimmed text is not so
wrapped (no fence at all, or extra content before or after the fence),
nothing is unwrapped: the result is the JSON parse of the whole trimmed
text, in particular a parse failure when that text is not valid JSON; and
(c) a bare JSON string — one whose whole trimmed text parses — always yields
exactly its parse, since valid JSON never begins with a backtick. -/
theorem c5_fence_parse_behavior (text : String) :
    (("```json".data.isPrefixOf (trimChars text.data)
        && "```".data.isSuffixOf (trimChars text.data)
        && decide (10 ≤ (trimChars text.data).length)) = true →
      parseGeminiJson text = JSON.parse (String.mk (trimChars
        (((trimChars text.data).drop 7).take ((trimChars text.data).length - 10)))))
    ∧ (("```json".data.isPrefixOf (trimChars text.data)
        && "```".data.isSuffixOf (trimChars text.data)
        && decide (10 ≤ (trimChars text.data).length)) = false →
      parseGeminiJson text = JSON.parse (String.mk (trimChars text.data))
      ∧ (JSON.parse (String.mk (trimChars text.data)) = none →
         parseGeminiJson text = none))
    ∧ (∀ j, JSON.parse (String.mk (trimChars text.data)) = some j →
        parseGeminiJson text = some j) := by
  refine ⟨?_, ?_, ?_⟩
  · intro hc
    simp only [parseGeminiJson]
    rw [if_pos hc]
  · intro hc
    have hbase : parseGeminiJson text = JSON.parse (String.mk (trimChars text.data)) := by
      simp only [parseGeminiJson]
      rw [if_neg (by simp [hc])]
    exact ⟨hbase, fun hn => hbase.trans hn⟩
  · intro j hj
    by_cases hc : ("```json".data.isPrefixOf (trimChars text.data)
        && "```".data.isSuffixOf (trimChars text.data)
        && decide (10 ≤ (trimChars text.data).length)) = true
    · exfalso
      have hA : "```json".data.isPrefixOf (trimChars text.data) = true := by
        simp only [Bool.and_eq_true] at hc
        exact hc.1.1
      obtain ⟨t, ht⟩ := isPrefixOf_append _ _ hA
      have htr : trimChars text.data = Char.ofNat 96 :: ("``json".data ++ t) := by
        rw [ht]
        rfl
      rw [htr, parse_backtick_head] at hj
      exact Option.noConfusion hj
    · have hbase : parseGeminiJson text = JSON.parse (String.mk (trimChars text.data)) := by
        simp only [parseGeminiJson]
        rw [if_neg hc]
      exact hbase.trans hj

/-- Witness for C5 at the three P5 inputs: a wholly fenced object parses to
the fenced interior's JSON, a bare JSON string parses to itself, and a fence
with extra leading and trailing content is not unwrapped — the whole trimmed
text is handed to the parser and fails. -/
theorem c5_fence_parse_behavior_witness :
    parseGeminiJson "```json\n\x7b\"a\":1\x7d\n```"
      = JSON.parse (String.mk (trimChars
          (((trimChars ("```json\n\x7b\"a\":1\x7d\n```".data)).drop 7).take
            ((trimChars ("```json\n\x7b\"a\":1\x7d\n```".data)).length - 10))))
    ∧ parseGeminiJson "\x7b\"a\":1\x7d" = some (Json.obj [("a", Json.num 1)])
    ∧ parseGeminiJson "prefix ```json\n\x7b\x7d\n``` suffix" = none :=
  ⟨(c5_fence_parse_behavior "```json\n\x7b\"a\":1\x7d\n```").1 rfl,
   (c5_fence_parse_behavior "\x7b\"a\":1\x7d").2.2 (Json.obj [("a", Json.num 1)]) rfl,
   ((c5_fence_parse_behavior "prefix ```json\n\x7b\x7d\n``` suffix").2.1 rfl).2 rfl⟩
